import Mathlib

/-!
Shallow embedding of the vote62-ballot-mark validation pipeline
(src/js: preprocessing.js, intersection.js, topology.js, arm-extension.js,
explained-ink.js, validation.js, plus the BallotGeometry utilities and the
BallotConfig constants).

Coordinates are real numbers; JavaScript's floating-point `Math.sqrt`,
`Math.atan2`, `Math.cos`, `Math.sin` are embedded as the exact real
functions, and JavaScript's `%` (truncated remainder) as `jsMod`.
Comparisons on reals are decided classically, so most definitions are
`noncomputable`; concrete runs are evaluated by lemmas.
-/

noncomputable section

open scoped Classical

open Real

/-- A point `{x, y}` in the logical coordinate space. -/
structure Point where
  x : ℝ
  y : ℝ

/-- A stroke: an ordered list of points. -/
abbrev Stroke := List Point

/-- A rectangle `{x, y, width, height}` (BallotConfig.VOTE_BOX). -/
structure Rect where
  x : ℝ
  y : ℝ
  width : ℝ
  height : ℝ

namespace BallotGeometry

/-- `BallotGeometry.dist`: Euclidean distance, `Math.sqrt(dx*dx + dy*dy)`. -/
def dist (p1 p2 : Point) : ℝ :=
  Real.sqrt ((p1.x - p2.x) * (p1.x - p2.x) + (p1.y - p2.y) * (p1.y - p2.y))

/-- `BallotGeometry.strokeLength`: total polyline length. -/
def strokeLength (stroke : Stroke) : ℝ :=
  ((List.range (stroke.length - 1)).map fun i =>
    dist (stroke.getD i ⟨0, 0⟩) (stroke.getD (i + 1) ⟨0, 0⟩)).sum

/-- `BallotGeometry.pointInRect`: point inside rectangle with tolerance. -/
def pointInRect (pt : Point) (rect : Rect) (tolerance : ℝ) : Prop :=
  rect.x - tolerance ≤ pt.x ∧ pt.x ≤ rect.x + rect.width + tolerance ∧
  rect.y - tolerance ≤ pt.y ∧ pt.y ≤ rect.y + rect.height + tolerance

/-- `BallotGeometry.segmentMidpoint` of a pair of endpoints. -/
def segmentMidpoint (p1 p2 : Point) : Point :=
  ⟨(p1.x + p2.x) / 2, (p1.y + p2.y) / 2⟩

/-- `BallotGeometry.pointToLineDistance`: perpendicular distance from `point`
to the infinite line through `linePoint` at angle `lineAngleDeg` (degrees). -/
def pointToLineDistance (point linePoint : Point) (lineAngleDeg : ℝ) : ℝ :=
  let rad := lineAngleDeg * π / 180
  let dx := point.x - linePoint.x
  let dy := point.y - linePoint.y
  let vx := Real.cos rad
  let vy := Real.sin rad
  |dx * vy - dy * vx|

end BallotGeometry

namespace BallotConfig

/-- Vote box geometry (logical pixels). -/
def VOTE_BOX : Rect := ⟨90, 85, 320, 220⟩

def BOX_TOLERANCE_PX : ℝ := 3
def RESAMPLE_STEP_PX : ℝ := 3
def SIMPLIFY_EPSILON_PX : ℝ := 3
def MIN_TOTAL_INK_LENGTH_PX : ℝ := 30
def MAX_POINTS_TOTAL : ℕ := 1200
def ENDPOINT_EPS_PX : ℝ := 6
def MIN_CROSSING_ANGLE_DEG : ℝ := 15
def MIN_ARM_EXTENSION_PX : ℝ := 18
def ARM_CORRIDOR_ANGLE_TOL_DEG : ℝ := 25
def ARM_CORRIDOR_DIST_PX : ℝ := 12
def TOPOLOGY_ANALYSIS_RADIUS_PX : ℝ := 60
def BRANCH_ANGLE_CLUSTER_TOL_DEG : ℝ := 30
def CROSS_CLUSTER_EPS_PX : ℝ := 26
def RETRACE_TOLERANCE_RATIO : ℝ := 0.12
def INTENTIONAL_MIN_RATIO : ℝ := 0.20
def MULTI_MARK_MIN_RATIO : ℝ := 1.0
def MIN_EXPLAINED_INK_RATIO : ℝ := 0.70
def MIN_EXPLAINED_INK_RATIO_SINGLE : ℝ := 0.50
def MIN_EXPLAINED_INK_RATIO_DOUBLE : ℝ := 0.62
def MIN_ARM_BALANCE_RATIO : ℝ := 0.70

end BallotConfig

/-- Truncation toward zero of a real, as JavaScript's implicit truncation in
`a % b` (the remainder has the dividend's sign). -/
def truncR (x : ℝ) : ℝ := if 0 ≤ x then (⌊x⌋ : ℝ) else -(⌊-x⌋ : ℝ)

/-- JavaScript's `%` on reals: `a - b * trunc(a / b)`. -/
def jsMod (a b : ℝ) : ℝ := a - b * truncR (a / b)

/-- JavaScript's `Math.atan2(y, x)`, with range `(-π, π]`, defined by the
usual case split over `Real.arctan`. (`Math.atan2(0, 0) = 0`; negative zero
does not exist on the reals.) -/
def atan2 (y x : ℝ) : ℝ :=
  if 0 < x then Real.arctan (y / x)
  else if x < 0 then
    (if 0 ≤ y then Real.arctan (y / x) + π else Real.arctan (y / x) - π)
  else -- x = 0
    (if 0 < y then π / 2 else if y < 0 then -(π / 2) else 0)

/-- Insert `x` into `l` before the first element `y` with `le x y`;
stable-insertion building block for `sortBy`. -/
def insertBy {α : Type} (le : α → α → Prop) (x : α) : List α → List α
  | [] => [x]
  | y :: ys => if le x y then x :: y :: ys else y :: insertBy le x ys

/-- Stable insertion sort; models JavaScript's `Array.prototype.sort` with a
comparator (the engine's sort is stable per the ECMAScript spec; only
sortedness matters to the pipeline). -/
def sortBy {α : Type} (le : α → α → Prop) (l : List α) : List α :=
  l.foldr (insertBy le) []

/-- `Math.min(...)` over a list (the pipeline only applies it to the four arm
extensions, a nonempty list). -/
def minOf : List ℝ → ℝ
  | [] => 0
  | x :: xs => xs.foldl min x

/-- `Math.max(...)` over a list (the pipeline only applies it to the four arm
extensions, a nonempty list). -/
def maxOf : List ℝ → ℝ
  | [] => 0
  | x :: xs => xs.foldl max x

namespace BallotPreprocessing

open BallotGeometry

/-- One raw-segment step of `resampleStroke`'s outer loop, in closed form.
The source's inner `while (accumulated >= step)` pushes an interpolated point
and subtracts `step` each iteration; for `step > 0` it runs exactly
`⌊accumulated / step⌋` times, leaving `accumulated - k * step`.  `k` is that
iteration count. -/
def resampleStep (step : ℝ) (prev cur : Point) (st : List Point × ℝ) :
    List Point × ℝ :=
  let acc := st.2 + dist prev cur
  let d := dist prev cur
  let k : ℕ := (⌊acc / step⌋).toNat
  let pushed := (List.range k).map fun j =>
    let t := (acc - ((j : ℝ) + 1) * step) / d
    Point.mk (cur.x - t * (cur.x - prev.x)) (cur.y - t * (cur.y - prev.y))
  (st.1 ++ pushed, acc - (k : ℝ) * step)

/-- `BallotPreprocessing.resampleStroke`: resample at uniform arc-length
intervals, then re-append the raw last point if the emitted last point is
more than 0.5 away. -/
def resampleStroke (stroke : Stroke) (step : ℝ) : Stroke :=
  if stroke.length < 2 then stroke
  else
    let st := (List.range (stroke.length - 1)).foldl
      (fun st i => resampleStep step (stroke.getD i ⟨0, 0⟩) (stroke.getD (i + 1) ⟨0, 0⟩) st)
      ([stroke.headD ⟨0, 0⟩], 0)
    let resampled := st.1
    if 0.5 < dist (resampled.getLastD ⟨0, 0⟩) (stroke.getLastD ⟨0, 0⟩) then
      resampled ++ [stroke.getLastD ⟨0, 0⟩]
    else resampled

/-- `BallotPreprocessing.pointToSegmentDist`: distance from a point to a
finite segment (projection parameter clamped to `[0, 1]`). -/
def pointToSegmentDist (pt p1 p2 : Point) : ℝ :=
  let dx := p2.x - p1.x
  let dy := p2.y - p1.y
  let lenSq := dx * dx + dy * dy
  if lenSq = 0 then dist pt p1
  else
    let t0 := ((pt.x - p1.x) * dx + (pt.y - p1.y) * dy) / lenSq
    let t := max 0 (min 1 t0)
    dist pt ⟨p1.x + t * dx, p1.y + t * dy⟩

/-- The `for (i = 1 .. n-2) { if (d > maxDist) { maxDist = d; maxIndex = i } }`
scan of `simplifyRDP`, over the precomputed list of interior distances;
`i` is the index carried for the next element. -/
def scanMax : List ℝ → ℕ → ℝ × ℕ → ℝ × ℕ
  | [], _, acc => acc
  | d :: ds, i, (m, mi) =>
    if m < d then scanMax ds (i + 1) (d, i) else scanMax ds (i + 1) (m, mi)

/-- The `(maxDist, maxIndex)` pair `simplifyRDP` computes over the interior
points (indices `1 .. length - 2`) of `points`. -/
def rdpScanRes (points : List Point) : ℝ × ℕ :=
  scanMax
    (((points.drop 1).dropLast).map fun p =>
      pointToSegmentDist p (points.headD ⟨0, 0⟩) (points.getLastD ⟨0, 0⟩))
    1 (0, 0)

/-- `BallotPreprocessing.simplifyRDP`: recursive Ramer–Douglas–Peucker.
The source recurses on `points.slice(0, maxIndex + 1)` and
`points.slice(maxIndex)`; `maxIndex ≤ length - 2` always holds, and
`maxIndex = 0` together with `maxDist > epsilon` forces `maxDist = 0` (all
interior distances zero) and `epsilon < 0`, where the source recursion does
not terminate; that unreachable-for-nonnegative-epsilon branch returns
`[first, last]` here so the embedding is total. -/
def simplifyRDP (points : List Point) (epsilon : ℝ) : List Point :=
  if points.length < 3 then points
  else
    if epsilon < (rdpScanRes points).1 then
      if h : 1 ≤ (rdpScanRes points).2 ∧ (rdpScanRes points).2 + 2 ≤ points.length then
        (simplifyRDP (points.take ((rdpScanRes points).2 + 1)) epsilon).dropLast ++
          simplifyRDP (points.drop (rdpScanRes points).2) epsilon
      else [points.headD ⟨0, 0⟩, points.getLastD ⟨0, 0⟩]
    else [points.headD ⟨0, 0⟩, points.getLastD ⟨0, 0⟩]
termination_by points.length
decreasing_by
  · simp only [List.length_take]
    omega
  · simp only [List.length_drop]
    omega

end BallotPreprocessing

/-- A segment of a simplified stroke's polyline, tagged with stroke identity
(`buildSegments`). -/
structure Segment where
  p1 : Point
  p2 : Point
  strokeIndex : ℕ
  segmentIndex : ℕ
  length : ℝ
  strokeStart : Point
  strokeEnd : Point

/-- An intersection `{x, y, angle, seg1, seg2}` as returned by
`findSegmentIntersection`. -/
structure Intersection where
  x : ℝ
  y : ℝ
  angle : ℝ
  seg1 : Segment
  seg2 : Segment

/-- The `{x, y}` view of an intersection (the fields `dist` reads). -/
def Intersection.pt (it : Intersection) : Point := ⟨it.x, it.y⟩

/-- Placeholder segment for out-of-range list reads (never actually read:
every index used is in range). -/
def dummySeg : Segment := ⟨⟨0, 0⟩, ⟨0, 0⟩, 0, 0, 0, ⟨0, 0⟩, ⟨0, 0⟩⟩

/-- Placeholder intersection for out-of-range list reads (never actually
read: every index used is in range). -/
def dummyInter : Intersection := ⟨0, 0, 0, dummySeg, dummySeg⟩

namespace BallotIntersection

open BallotGeometry

/-- `BallotIntersection.buildSegments`: one tagged segment per consecutive
point pair of every stroke, with the stroke's true start and end stored for
the endpoint-exclusion test. -/
def buildSegments (strokes : List Stroke) : List Segment :=
  (strokes.enum).flatMap fun si_stroke =>
    let si := si_stroke.1
    let stroke := si_stroke.2
    (List.range (stroke.length - 1)).map fun i =>
      { p1 := stroke.getD i ⟨0, 0⟩
        p2 := stroke.getD (i + 1) ⟨0, 0⟩
        strokeIndex := si
        segmentIndex := i
        length := dist (stroke.getD i ⟨0, 0⟩) (stroke.getD (i + 1) ⟨0, 0⟩)
        strokeStart := stroke.headD ⟨0, 0⟩
        strokeEnd := stroke.getLastD ⟨0, 0⟩ }

/-- The crossing-angle fold of `findSegmentIntersection` (source lines 67–70):
`crossAngle = |angle1 - angle2| * 180 / π; if (crossAngle > 90) crossAngle =
180 - crossAngle`, where `angle1`, `angle2` are the two `Math.atan2` direction
angles in radians. -/
def crossAngleFold (angle1 angle2 : ℝ) : ℝ :=
  let crossAngle := |angle1 - angle2| * 180 / π
  if 90 < crossAngle then 180 - crossAngle else crossAngle

/-- `BallotIntersection.findSegmentIntersection`: parametric line–line
intersection with the determinant guard, the `[0,1]` parameter range check,
the stroke-endpoint exclusion, and the minimum crossing-angle filter. -/
def findSegmentIntersection (seg1 seg2 : Segment) : Option Intersection :=
  let dx1 := seg1.p2.x - seg1.p1.x
  let dy1 := seg1.p2.y - seg1.p1.y
  let dx2 := seg2.p2.x - seg2.p1.x
  let dy2 := seg2.p2.y - seg2.p1.y
  let det := dx1 * dy2 - dy1 * dx2
  if |det| < 1e-10 then none
  else
    let t := ((seg2.p1.x - seg1.p1.x) * dy2 - (seg2.p1.y - seg1.p1.y) * dx2) / det
    let u := ((seg2.p1.x - seg1.p1.x) * dy1 - (seg2.p1.y - seg1.p1.y) * dx1) / det
    if t < 0 ∨ 1 < t ∨ u < 0 ∨ 1 < u then none
    else
      let ix := seg1.p1.x + t * dx1
      let iy := seg1.p1.y + t * dy1
      if dist ⟨ix, iy⟩ seg1.strokeStart < BallotConfig.ENDPOINT_EPS_PX ∨
         dist ⟨ix, iy⟩ seg1.strokeEnd < BallotConfig.ENDPOINT_EPS_PX ∨
         dist ⟨ix, iy⟩ seg2.strokeStart < BallotConfig.ENDPOINT_EPS_PX ∨
         dist ⟨ix, iy⟩ seg2.strokeEnd < BallotConfig.ENDPOINT_EPS_PX then none
      else
        let crossAngle := crossAngleFold (atan2 dy1 dx1) (atan2 dy2 dx2)
        if crossAngle < BallotConfig.MIN_CROSSING_ANGLE_DEG then none
        else some ⟨ix, iy, crossAngle, seg1, seg2⟩

/-- The ordered list of pairs `(l[i], l[j])` with `i < j` (the double loop of
`findAllIntersections`). -/
def orderedPairs {α : Type} : List α → List (α × α)
  | [] => []
  | x :: xs => (xs.map fun y => (x, y)) ++ orderedPairs xs

/-- `BallotIntersection.findAllIntersections`: every crossing between two
segments that are from different strokes or non-adjacent within one stroke,
kept only when it lies inside the vote box. -/
def findAllIntersections (segments : List Segment) : List Intersection :=
  (orderedPairs segments).filterMap fun sp =>
    let seg1 := sp.1
    let seg2 := sp.2
    if seg1.strokeIndex ≠ seg2.strokeIndex ∨
        1 < ((seg1.segmentIndex : ℤ) - (seg2.segmentIndex : ℤ)).natAbs then
      match findSegmentIntersection seg1 seg2 with
      | some inter =>
        if pointInRect inter.pt BallotConfig.VOTE_BOX 0 then some inter else none
      | none => none
    else none

end BallotIntersection

/-- A spatial cluster of intersections (`clusterIntersections`):
`{points, indices, centroid, count}`. -/
structure Cluster where
  points : List Intersection
  indices : List ℕ
  centroid : Point
  count : ℕ

namespace BallotTopology

open BallotGeometry

/-- A `{angle, weight}` record for angular clustering. -/
structure AngleW where
  angle : ℝ
  weight : ℝ

/-- The linear sweep of `clusterAngles`: greedily merge each next angle into
the running mode when within tolerance (weighted average), else emit the mode
and start a new one; the running mode is emitted at the end. -/
def sweepModes (tolerance : ℝ) : List AngleW → AngleW → List AngleW → List AngleW
  | [], cur, modes => modes ++ [cur]
  | a :: rest, cur, modes =>
    let diff := min |a.angle - cur.angle| (180 - |a.angle - cur.angle|)
    if diff ≤ tolerance then
      let totalWeight := cur.weight + a.weight
      sweepModes tolerance rest
        ⟨(cur.angle * cur.weight + a.angle * a.weight) / totalWeight, totalWeight⟩ modes
    else sweepModes tolerance rest a (modes ++ [cur])

/-- `BallotTopology.clusterAngles`: sort ascending by angle, sweep, merge the
first and last mode through the 0°/180° seam when within tolerance, then sort
the surviving modes by descending weight. -/
def clusterAngles (angleData : List AngleW) (tolerance : ℝ) : List AngleW :=
  match sortBy (fun a b => a.angle ≤ b.angle) angleData with
  | [] => []
  | a :: rest =>
    let modes := sweepModes tolerance rest a []
    let merged :=
      if 1 < modes.length then
        let firstM := modes.headD ⟨0, 0⟩
        let lastM := modes.getLastD ⟨0, 0⟩
        if |firstM.angle - (lastM.angle - 180)| ≤ tolerance then
          let totalWeight := firstM.weight + lastM.weight
          (AngleW.mk
            ((firstM.angle * firstM.weight + (lastM.angle - 180) * lastM.weight) /
              totalWeight) totalWeight :: modes.tail).dropLast
        else modes
      else modes
    sortBy (fun a b => b.weight ≤ a.weight) merged

/-- The consecutive point pairs of every stroke (segments as
`countGlobalBranches` and `findInkInCorridor` rebuild them). -/
def strokeSegPairs (allStrokes : List Stroke) : List (Point × Point) :=
  allStrokes.flatMap fun stroke => stroke.zip stroke.tail

/-- The normalized bidirectional direction of a segment in degrees,
`((atan2 * 180 / π) % 180 + 180) % 180` with JavaScript's `%`. -/
def normDeg180 (p1 p2 : Point) : ℝ :=
  jsMod (jsMod (atan2 (p2.y - p1.y) (p2.x - p1.x) * 180 / π) 180 + 180) 180

/-- `BallotTopology.countGlobalBranches`: collect every stroke segment whose
midpoint is within the analysis radius of `P`, weighted by length, and count
the angular modes. -/
def countGlobalBranches (P : Point) (allStrokes : List Stroke) : ℕ :=
  let nearbySegments := (strokeSegPairs allStrokes).filterMap fun (pq : Point × Point) =>
    if dist (segmentMidpoint pq.1 pq.2) P ≤ BallotConfig.TOPOLOGY_ANALYSIS_RADIUS_PX then
      some (AngleW.mk (normDeg180 pq.1 pq.2) (dist pq.1 pq.2))
    else none
  if nearbySegments.length = 0 then 0
  else (clusterAngles nearbySegments BallotConfig.BRANCH_ANGLE_CLUSTER_TOL_DEG).length

/-- The inner `for (j = i+1; j < n; j++)` expansion loop of
`clusterIntersections`: absorb each not-yet-visited intersection within
`epsilon` of any point already in the cluster. State: the cluster's points,
its indices, and the visited flags. -/
def expandLoop (inters : List Intersection) (epsilon : ℝ) :
    List ℕ → List Intersection → List ℕ → List Bool →
    List Intersection × List ℕ × List Bool
  | [], pts, idxs, vis => (pts, idxs, vis)
  | j :: js, pts, idxs, vis =>
    if vis.getD j true then expandLoop inters epsilon js pts idxs vis
    else if ∃ pt ∈ pts, dist pt.pt (inters.getD j dummyInter).pt ≤ epsilon then
      expandLoop inters epsilon js (pts ++ [inters.getD j dummyInter])
        (idxs ++ [j]) (vis.set j true)
    else expandLoop inters epsilon js pts idxs vis

/-- Finalize a cluster: centroid and count. -/
def mkCluster (pts : List Intersection) (idxs : List ℕ) : Cluster :=
  { points := pts
    indices := idxs
    centroid := ⟨(pts.map Intersection.x).sum / pts.length,
                 (pts.map Intersection.y).sum / pts.length⟩
    count := pts.length }

/-- The expansion `clusterIntersections` runs for an unvisited seed index
`i`: the inner loop over `j = i+1 .. n-1` from the singleton cluster
`{points: [inters[i]], indices: [i]}` with `i` marked visited. -/
def expandFrom (inters : List Intersection) (epsilon : ℝ) (i : ℕ) (vis : List Bool) :
    List Intersection × List ℕ × List Bool :=
  expandLoop inters epsilon (List.range' (i + 1) (inters.length - (i + 1)))
    [inters.getD i dummyInter] [i] (vis.set i true)

/-- The outer loop of `clusterIntersections` over seed indices. -/
def outerLoop (inters : List Intersection) (epsilon : ℝ) :
    List ℕ → List Bool → List Cluster
  | [], _ => []
  | i :: is, vis =>
    if vis.getD i true then outerLoop inters epsilon is vis
    else
      mkCluster (expandFrom inters epsilon i vis).1 (expandFrom inters epsilon i vis).2.1 ::
        outerLoop inters epsilon is (expandFrom inters epsilon i vis).2.2

/-- `BallotTopology.clusterIntersections`: DBSCAN-like greedy spatial
clustering with a single forward pass per seed. -/
def clusterIntersections (intersections : List Intersection) (epsilon : ℝ) :
    List Cluster :=
  if intersections.length = 0 then []
  else outerLoop intersections epsilon (List.range intersections.length)
    (List.replicate intersections.length false)

end BallotTopology

namespace BallotArmExtension

open BallotGeometry

/-- The result record of `measure4ArmExtension`:
`{valid, extensions, minExtension, armAngles}`; `extensions` is kept in the
arm-label order `seg1+, seg1-, seg2+, seg2-`, which is also the order of
`armAngles` (`Object.values` preserves insertion order). -/
structure ArmResult where
  valid : Prop
  extensions : List ℝ
  minExtension : ℝ
  armAngles : List ℝ

/-- The normalized `[0, 360)` direction of a segment in degrees,
`((atan2 * 180 / π) % 360 + 360) % 360` with JavaScript's `%`. -/
def normDeg360 (p1 p2 : Point) : ℝ :=
  jsMod (jsMod (atan2 (p2.y - p1.y) (p2.x - p1.x) * 180 / π) 360 + 360) 360

/-- `BallotArmExtension.findInkInCorridor`: the farthest forward-projected
ink reach from `P` along `direction` (degrees), scanning every segment of
every stroke under the angular-alignment, corridor-distance and
positive-side conditions. -/
def findInkInCorridor (P : Point) (direction : ℝ) (allStrokes : List Stroke) : ℝ :=
  let dirVec : Point := ⟨Real.cos (direction * π / 180), Real.sin (direction * π / 180)⟩
  (BallotTopology.strokeSegPairs allStrokes).foldl
    (fun maxDist (pq : Point × Point) =>
      let segDir := normDeg360 pq.1 pq.2
      let angleDiff1 := min |segDir - direction| (360 - |segDir - direction|)
      let angleDiff2 := min |segDir - jsMod (direction + 180) 360|
        (360 - |segDir - jsMod (direction + 180) 360|)
      let angleDiff := min angleDiff1 angleDiff2
      if BallotConfig.ARM_CORRIDOR_ANGLE_TOL_DEG < angleDiff then maxDist
      else
        let mid := segmentMidpoint pq.1 pq.2
        let perpDist := pointToLineDistance mid P direction
        if BallotConfig.ARM_CORRIDOR_DIST_PX < perpDist then maxDist
        else
          let dot1 := (pq.1.x - P.x) * dirVec.x + (pq.1.y - P.y) * dirVec.y
          let dot2 := (pq.2.x - P.x) * dirVec.x + (pq.2.y - P.y) * dirVec.y
          if 0 < dot1 ∨ 0 < dot2 then
            let dist1 := if 0 < dot1 then dist P pq.1 else 0
            let dist2 := if 0 < dot2 then dist P pq.2 else 0
            max maxDist (max dist1 dist2)
          else maxDist)
    0

/-- `BallotArmExtension.measure4ArmExtension`: derive the two stroke
directions folded to `[0, 180)`, build the four arm directions, measure each
arm's corridor reach, and validate against the minimum extension. -/
def measure4ArmExtension (P : Point) (seg1 seg2 : Segment) (allStrokes : List Stroke) :
    ArmResult :=
  let angle1 := BallotTopology.normDeg180 seg1.p1 seg1.p2
  let angle2 := BallotTopology.normDeg180 seg2.p1 seg2.p2
  let armAngles := [angle1, jsMod (angle1 + 180) 360, angle2, jsMod (angle2 + 180) 360]
  let extensions := armAngles.map fun angle => findInkInCorridor P angle allStrokes
  let minExtension := minOf extensions
  { valid := BallotConfig.MIN_ARM_EXTENSION_PX ≤ minExtension
    extensions := extensions
    minExtension := minExtension
    armAngles := armAngles }

end BallotArmExtension

/-- A cross candidate as `validateMark` builds it:
`{point, minExtension, extensions, armAngles, strokesAtIntersection}`. -/
structure Candidate where
  point : Point
  minExtension : ℝ
  extensions : List ℝ
  armAngles : List ℝ
  strokesAtIntersection : ℕ

namespace BallotExplainedInk

open BallotGeometry

/-- The loop body of `calculateExplainedInkRatio`: accumulate
`(totalLength, explainedLength)` over one segment; a segment's length counts
as explained when its direction and midpoint fit the corridor of either
axis. -/
def explainedStep (P : Point) (dirA dirB : ℝ) (acc : ℝ × ℝ) (seg : Segment) : ℝ × ℝ :=
  let mid := segmentMidpoint seg.p1 seg.p2
  let segLen := seg.length
  let segDir := BallotTopology.normDeg180 seg.p1 seg.p2
  let angleDiffA := min |segDir - dirA| (180 - |segDir - dirA|)
  let perpDistA := pointToLineDistance mid P dirA
  let angleDiffB := min |segDir - dirB| (180 - |segDir - dirB|)
  let perpDistB := pointToLineDistance mid P dirB
  let explainedByA := angleDiffA ≤ BallotConfig.ARM_CORRIDOR_ANGLE_TOL_DEG ∧
    perpDistA ≤ BallotConfig.ARM_CORRIDOR_DIST_PX
  let explainedByB := angleDiffB ≤ BallotConfig.ARM_CORRIDOR_ANGLE_TOL_DEG ∧
    perpDistB ≤ BallotConfig.ARM_CORRIDOR_DIST_PX
  (acc.1 + segLen, if explainedByA ∨ explainedByB then acc.2 + segLen else acc.2)

/-- `BallotExplainedInk.calculateExplainedInkRatio`: the fraction of segment
length whose midpoint and direction are consistent with either of the best
candidate's two cross axes (`processedStrokes` is unused in the source and
kept for signature fidelity). -/
def calculateExplainedInkRatio (bestCandidate : Candidate)
    (processedStrokes : List Stroke) (segments : List Segment) : ℝ :=
  let P := bestCandidate.point
  let dirA := jsMod (bestCandidate.armAngles.getD 0 0) 180
  let dirB := jsMod (bestCandidate.armAngles.getD 2 0) 180
  let acc := segments.foldl (explainedStep P dirA dirB) (0, 0)
  if 0 < acc.1 then acc.2 / acc.1 else 0

end BallotExplainedInk

/-- The validation result `{valid, label, invalid_type, reason}`;
`valid = none` is the JavaScript `null`.  The `debug` payload is omitted: it
is an additive output with no effect on the decision logic. -/
structure VResult where
  valid : Option Bool
  label : String
  invalid_type : Option String
  reason : String

namespace BallotValidation

open BallotGeometry BallotTopology BallotIntersection BallotArmExtension

/-- Whether a cluster contains a member intersection whose 4-arm measurement
is valid (the `hasValidCross` loop of `validateMark`). -/
def clusterHasValidCross (cluster : Cluster) (processedStrokes : List Stroke) : Prop :=
  ∃ inter ∈ cluster.points,
    (measure4ArmExtension inter.pt inter.seg1 inter.seg2 processedStrokes).valid

/-- The count of distinct stroke indices across every intersection of a
cluster (the `uniqueStrokesInCluster` set; `strokeIndex` is always defined in
the embedding, as it is for every segment `buildSegments` produces). -/
def strokesAtClusterOf (cluster : Cluster) : ℕ :=
  ((cluster.points.flatMap fun inter => [inter.seg1.strokeIndex, inter.seg2.strokeIndex]).dedup).length

/-- The `for (cluster of clusters) if (cluster.points.includes(inter))`
lookup of `validateMark`, with its default of 2 when no cluster contains the
intersection. -/
def strokesAtClusterFor (clusters : List Cluster) (inter : Intersection) : ℕ :=
  match clusters.find? fun c => decide (inter ∈ c.points) with
  | some c => strokesAtClusterOf c
  | none => 2

/-- The adaptive scale reference of `validateMark`: the median of the 4-arm
average lengths over every valid member of every cross-valid cluster, with a
fallback of 60. -/
def computeScaleReference (validClusters : List Cluster)
    (processedStrokes : List Stroke) : ℝ :=
  let validCrossArmLengths := validClusters.flatMap fun cluster =>
    cluster.points.filterMap fun inter =>
      let r := measure4ArmExtension inter.pt inter.seg1 inter.seg2 processedStrokes
      if r.valid then some (r.extensions.sum / 4) else none
  if validCrossArmLengths.length = 0 then 60
  else
    let sorted := sortBy (fun a b => a ≤ b) validCrossArmLengths
    let mid := validCrossArmLengths.length / 2
    if validCrossArmLengths.length % 2 = 0 then
      (sorted.getD (mid - 1) 0 + sorted.getD mid 0) / 2
    else sorted.getD mid 0

/-- The inner `for (j = i+1 ...)` of the cluster-separation scan: returns the
updated `hasIntentionalInvalidation` flag and whether a multi-mark pair was
found (on which the source breaks out of the inner loop). -/
def pairScanInner (intentionalThreshold multiMarkThreshold : ℝ) (c : Cluster) :
    List Cluster → Bool → Bool × Bool
  | [], hasInt => (hasInt, false)
  | d :: ds, hasInt =>
    if multiMarkThreshold ≤ dist c.centroid d.centroid then (hasInt, true)
    else if intentionalThreshold ≤ dist c.centroid d.centroid then
      pairScanInner intentionalThreshold multiMarkThreshold c ds true
    else pairScanInner intentionalThreshold multiMarkThreshold c ds hasInt

/-- The outer `for (i ...)` of the cluster-separation scan, breaking as soon
as a multi-mark pair is found. -/
def pairScanOuter (intentionalThreshold multiMarkThreshold : ℝ) :
    List Cluster → Bool → Bool × Bool
  | [], hasInt => (hasInt, false)
  | c :: cs, hasInt =>
    let r := pairScanInner intentionalThreshold multiMarkThreshold c cs hasInt
    if r.2 then (r.1, true)
    else pairScanOuter intentionalThreshold multiMarkThreshold cs r.1

/-- The MULTI_MARK / intentional-invalidation stage of `validateMark`
(source lines 186–244): evaluated only when at least two cross-valid
clusters exist; `none` means fall through to the candidate stage.  The
retrace threshold is computed by the source but only used implicitly (a
distance below the intentional threshold is treated as retracing). -/
def multiMarkStage (validClusters : List Cluster) (scaleReference : ℝ) :
    Option VResult :=
  if 2 ≤ validClusters.length then
    if (pairScanOuter (scaleReference * BallotConfig.INTENTIONAL_MIN_RATIO)
        (scaleReference * BallotConfig.MULTI_MARK_MIN_RATIO) validClusters false).2 then
      some ⟨some false, "บัตรเสีย", some "multi_mark", "ทำเครื่องหมายมากกว่า 1 จุด"⟩
    else if (pairScanOuter (scaleReference * BallotConfig.INTENTIONAL_MIN_RATIO)
        (scaleReference * BallotConfig.MULTI_MARK_MIN_RATIO) validClusters false).1 then
      some ⟨some false, "บัตรเสีย", some "wrong_symbol", "ทำเครื่องหมายเพิ่มเติมเพื่อให้บัตรเสีย"⟩
    else none
  else none

/-- The EXTRA_WRITING / VALID tail of `validateMark` (source lines 365–409):
stroke-count-adaptive explained-ink threshold, then the final verdict. -/
def explainedInkStage (strokeCount : ℕ) (bestCandidate : Candidate)
    (processedStrokes : List Stroke) (segments : List Segment) : VResult :=
  let explainedInkThreshold :=
    if strokeCount = 1 then BallotConfig.MIN_EXPLAINED_INK_RATIO_SINGLE
    else if strokeCount = 2 then BallotConfig.MIN_EXPLAINED_INK_RATIO_DOUBLE
    else BallotConfig.MIN_EXPLAINED_INK_RATIO
  let explainedRatio := BallotExplainedInk.calculateExplainedInkRatio
    bestCandidate processedStrokes segments
  if explainedRatio < explainedInkThreshold then
    ⟨some false, "บัตรเสีย", some "extra_writing", "มีสัญลักษณ์หรือข้อความเพิ่มเติม"⟩
  else ⟨some true, "บัตรดี", none, ""⟩

/-- The best-candidate stage of `validateMark` (source lines 277–409): the
empty-candidate WRONG_SYMBOL check, best-candidate selection by largest
`minExtension` (`Array.reduce`, first-encountered wins ties), the global
branch count around the best candidate, the branch-count checks with the
stroke-count and arm-balance tiers, and the explained-ink tail. -/
def bestCandidateStage (strokeCount : ℕ) (processedStrokes : List Stroke)
    (segments : List Segment) (crossCandidates : List Candidate) : VResult :=
  match crossCandidates with
  | [] => ⟨some false, "บัตรเสีย", some "wrong_symbol", "ทำเครื่องหมายแบบอื่น"⟩
  | c0 :: rest =>
    let bestCandidate := rest.foldl
      (fun best curr => if best.minExtension < curr.minExtension then curr else best) c0
    let branchCount := countGlobalBranches bestCandidate.point processedStrokes
    if branchCount < 2 then
      ⟨some false, "บัตรเสีย", some "wrong_symbol", "ไม่มีรูปร่างกากบาท"⟩
    else if 2 < branchCount then
      if branchCount = 3 then
        if strokeCount ≤ 2 then
          explainedInkStage strokeCount bestCandidate processedStrokes segments
        else
          let minArm := bestCandidate.minExtension
          let maxArm := maxOf bestCandidate.extensions
          let armBalanceRatio := minArm / maxArm
          if armBalanceRatio < 0.70 then
            ⟨some false, "บัตรเสีย", some "wrong_symbol", "ทำเครื่องหมายแบบอื่น"⟩
          else explainedInkStage strokeCount bestCandidate processedStrokes segments
      else ⟨some false, "บัตรเสีย", some "wrong_symbol", "ทำเครื่องหมายแบบอื่น"⟩
    else explainedInkStage strokeCount bestCandidate processedStrokes segments

/-- The dense OUTSIDE_BOX test of `validateMark`: some interpolated sub-point
of some processed-stroke segment falls outside the vote box (with tolerance).
In the source `steps = Math.ceil(d / RESAMPLE_STEP_PX)` and `t = j / steps`;
a zero-length segment gives `steps = 0` and `t = 0/0`, embedded as `t = 0`
(real division by zero), i.e. the point `p1` itself. -/
def outsideBox (processedStrokes : List Stroke) : Prop :=
  ∃ pq ∈ BallotTopology.strokeSegPairs processedStrokes,
    ∃ j ≤ (⌈BallotGeometry.dist pq.1 pq.2 / BallotConfig.RESAMPLE_STEP_PX⌉).toNat,
      ¬ BallotGeometry.pointInRect
        ⟨pq.1.x + ((j : ℝ) / ((⌈BallotGeometry.dist pq.1 pq.2 / BallotConfig.RESAMPLE_STEP_PX⌉).toNat : ℝ)) * (pq.2.x - pq.1.x),
         pq.1.y + ((j : ℝ) / ((⌈BallotGeometry.dist pq.1 pq.2 / BallotConfig.RESAMPLE_STEP_PX⌉).toNat : ℝ)) * (pq.2.y - pq.1.y)⟩
        BallotConfig.VOTE_BOX BallotConfig.BOX_TOLERANCE_PX

/-- `BallotValidation.validateMark`: the full ordered decision procedure.
Debug accumulation is omitted (additive, no effect on the decision). -/
def validateMark (strokes : List Stroke) : VResult :=
  if strokes.length = 0 then
    ⟨none, "รอการทำเครื่องหมาย", none, ""⟩
  else
    let totalInkLength := (strokes.map strokeLength).sum
    let processedStrokes := strokes.map fun stroke =>
      BallotPreprocessing.simplifyRDP
        (BallotPreprocessing.resampleStroke stroke BallotConfig.RESAMPLE_STEP_PX)
        BallotConfig.SIMPLIFY_EPSILON_PX
    if totalInkLength < BallotConfig.MIN_TOTAL_INK_LENGTH_PX then
      ⟨some false, "บัตรเสีย", some "blank", "ไม่มีเครื่องหมาย"⟩
    else if BallotConfig.MAX_POINTS_TOTAL < (processedStrokes.map List.length).sum then
      ⟨some false, "บัตรเสีย", some "wrong_symbol", "ทำเครื่องหมายแบบอื่น"⟩
    else if outsideBox processedStrokes then
      ⟨some false, "บัตรเสีย", some "outside_box", "ล้ำออกนอกกรอบ"⟩
    else
      let segments := buildSegments processedStrokes
      let intersections := findAllIntersections segments
      if intersections.length = 0 then
        ⟨some false, "บัตรเสีย", some "no_cross", "ไม่มีจุดตัดแบบกากบาท"⟩
      else
        let clusters := clusterIntersections intersections BallotConfig.CROSS_CLUSTER_EPS_PX
        let validClusters := clusters.filter fun c =>
          decide (clusterHasValidCross c processedStrokes)
        let scaleReference := computeScaleReference validClusters processedStrokes
        match multiMarkStage validClusters scaleReference with
        | some r => r
        | none =>
          let crossCandidates := intersections.filterMap fun inter =>
            let r := measure4ArmExtension inter.pt inter.seg1 inter.seg2 processedStrokes
            if r.valid then
              some (Candidate.mk inter.pt r.minExtension r.extensions r.armAngles
                (strokesAtClusterFor clusters inter))
            else none
          bestCandidateStage strokes.length processedStrokes segments crossCandidates

end BallotValidation

/-- The empty cluster (default value for head lookups on cluster lists). -/
def emptyCluster : Cluster := ⟨[], [], ⟨0, 0⟩, 0⟩

/-- Two intersections are pairwise-reachable in `inters` at `epsilon`:
connected by a chain of intersections of the list, each consecutive pair
within `epsilon` of each other (reflexive-transitive closure of the
single-hop relation). -/
def ReachableIn (inters : List Intersection) (epsilon : ℝ) :
    Intersection → Intersection → Prop :=
  Relation.ReflTransGen fun u v =>
    u ∈ inters ∧ v ∈ inters ∧ BallotGeometry.dist u.pt v.pt ≤ epsilon

/-- An intersection record carrying only coordinates (test inputs for the
clustering runs; the segment payload is irrelevant to `clusterIntersections`). -/
def testInter (x y : ℝ) : Intersection := ⟨x, y, 0, dummySeg, dummySeg⟩

/-- A cluster record carrying only a centroid (test inputs for the
separation scan, which reads nothing else). -/
def testCluster (x y : ℝ) : Cluster := ⟨[], [], ⟨x, y⟩, 0⟩

/-- Concrete intersection list for the chain-reachability analysis:
three collinear points at x = 0, 10, 5. -/
def chainEx : List Intersection := [testInter 0 0, testInter 10 0, testInter 5 0]

/-- Concrete intersection list for the epsilon-monotonicity analysis:
three collinear points at x = 0, 16, 10. -/
def monoEx : List Intersection := [testInter 0 0, testInter 16 0, testInter 10 0]

/-- Concrete processed strokes for the best-candidate stage analysis: one
horizontal and one vertical stroke crossing at (200, 200), both inside the
vote box, each a single 120-px segment. -/
def starStrokes : List Stroke :=
  [[⟨140, 200⟩, ⟨260, 200⟩], [⟨200, 140⟩, ⟨200, 260⟩]]

/-- Concrete cross candidate at (200, 200) whose containing cluster counted
3 distinct strokes (`strokesAtIntersection = 3`), with balanced 30-px arms
along the axis directions. -/
def starCandidate : Candidate := ⟨⟨200, 200⟩, 30, [30, 30, 30, 30], [0, 180, 90, 270], 3⟩

/-! ## Theorems -/

theorem ballot_dist_nonneg (p q : Point) : 0 ≤ BallotGeometry.dist p q :=
  Real.sqrt_nonneg _

theorem ballot_dist_comm (p q : Point) :
    BallotGeometry.dist p q = BallotGeometry.dist q p := by
  unfold BallotGeometry.dist
  ring_nf

theorem ballot_dist_eval {p q : Point} {c : ℝ}
    (h : (p.x - q.x) * (p.x - q.x) + (p.y - q.y) * (p.y - q.y) = c * c)
    (hc : 0 ≤ c) : BallotGeometry.dist p q = c := by
  rw [BallotGeometry.dist, h, show c * c = c ^ 2 by ring, Real.sqrt_sq hc]

theorem truncR_of_nonneg {x : ℝ} (h : 0 ≤ x) : truncR x = (⌊x⌋ : ℝ) := if_pos h

theorem jsMod_of_nonneg_lt {a b : ℝ} (h0 : 0 ≤ a) (h : a < b) : jsMod a b = a := by
  have hb : 0 < b := lt_of_le_of_lt h0 h
  have hfloor : ⌊a / b⌋ = 0 := by
    rw [Int.floor_eq_zero_iff]
    exact ⟨div_nonneg h0 hb.le, (div_lt_one hb).2 h⟩
  rw [jsMod, truncR_of_nonneg (div_nonneg h0 hb.le), hfloor]
  simp

theorem jsMod_of_le_lt_two {a b : ℝ} (hb : 0 < b) (h0 : b ≤ a) (h : a < 2 * b) :
    jsMod a b = a - b := by
  have hfloor : ⌊a / b⌋ = 1 := by
    have h1 : (1 : ℝ) ≤ a / b := (one_le_div hb).2 h0
    have h2 : a / b < 2 := by
      rw [div_lt_iff₀ hb]
      linarith
    rw [Int.floor_eq_iff]
    constructor
    · exact_mod_cast h1
    · push_cast
      linarith
  rw [jsMod, truncR_of_nonneg (div_nonneg (hb.le.trans h0) hb.le), hfloor]
  simp

theorem atan2_zero_pos {x : ℝ} (hx : 0 < x) : atan2 0 x = 0 := by
  rw [atan2, if_pos hx, zero_div, Real.arctan_zero]

theorem atan2_pos_zero {y : ℝ} (hy : 0 < y) : atan2 y 0 = π / 2 := by
  rw [atan2, if_neg (lt_irrefl 0), if_neg (lt_irrefl 0), if_pos hy]

theorem atan2_zero_neg {x : ℝ} (hx : x < 0) : atan2 0 x = π := by
  rw [atan2, if_neg (by linarith), if_pos hx, if_pos le_rfl, zero_div,
    Real.arctan_zero, zero_add]

theorem atan2_neg_zero {y : ℝ} (hy : y < 0) : atan2 y 0 = -(π / 2) := by
  rw [atan2, if_neg (lt_irrefl 0), if_neg (lt_irrefl 0), if_neg (by linarith),
    if_pos hy]

/-- C4 (counterexample): the direction angles `π` and `-π/2` are legal
`atan2` outputs (realized by a leftward horizontal and a downward vertical
segment direction), both lie in `(-π, π]`, yet the compared crossing angle
`findSegmentIntersection` computes for them is `-90`, outside `[0°, 90°]`. -/
theorem crossAngleFold_out_of_range_cex :
    (-π < π ∧ π ≤ π) ∧ (-π < -(π / 2) ∧ -(π / 2) ≤ π) ∧
    atan2 0 (-120) = π ∧ atan2 (-120) 0 = -(π / 2) ∧
    BallotIntersection.crossAngleFold (atan2 0 (-120)) (atan2 (-120) 0) = -90 ∧
    ¬ (0 ≤ BallotIntersection.crossAngleFold (atan2 0 (-120)) (atan2 (-120) 0)) := by
  have hpi : (0 : ℝ) < π := Real.pi_pos
  have h1 : atan2 0 (-120) = π := atan2_zero_neg (by norm_num)
  have h2 : atan2 (-120) 0 = -(π / 2) := atan2_neg_zero (by norm_num)
  have habs : |π - -(π / 2)| = 3 / 2 * π := by
    rw [abs_of_pos (by linarith)]
    ring
  have hdeg : |π - -(π / 2)| * 180 / π = 270 := by
    rw [habs]
    field_simp
    ring
  have hfold : BallotIntersection.crossAngleFold π (-(π / 2)) = -90 := by
    rw [BallotIntersection.crossAngleFold]
    simp only [hdeg]
    rw [if_pos (by norm_num)]
    norm_num
  refine ⟨⟨by linarith, le_rfl⟩, ⟨by linarith, by linarith⟩, h1, h2, ?_, ?_⟩
  · rw [h1, h2, hfold]
  · rw [h1, h2, hfold]
    norm_num

/-- C4 (amended): for all direction angles, the crossing angle
`findSegmentIntersection` computes equals `min(θ, 180° - θ)` where `θ` is the
absolute difference of the two direction angles in degrees; it lies in
`[0°, 90°]` whenever `θ ≤ 180°`, but is negative when `θ > 180°` (which
`atan2` outputs in `(-180°, 180°]` can produce, since their difference
reaches up to 360°). -/
theorem crossAngleFold_eq_min_fold (angle1 angle2 : ℝ) :
    BallotIntersection.crossAngleFold angle1 angle2 =
      min (|angle1 - angle2| * 180 / π) (180 - |angle1 - angle2| * 180 / π) ∧
    (|angle1 - angle2| * 180 / π ≤ 180 →
      0 ≤ BallotIntersection.crossAngleFold angle1 angle2 ∧
      BallotIntersection.crossAngleFold angle1 angle2 ≤ 90) := by
  have hpi : (0 : ℝ) < π := Real.pi_pos
  have hθ : 0 ≤ |angle1 - angle2| * 180 / π :=
    div_nonneg (mul_nonneg (abs_nonneg _) (by norm_num)) hpi.le
  rw [BallotIntersection.crossAngleFold]
  set θ := |angle1 - angle2| * 180 / π with hθdef
  by_cases h : 90 < θ
  · rw [if_pos h]
    constructor
    · rw [min_eq_right]
      linarith
    · intro h180
      constructor <;> linarith
  · rw [if_neg h]
    push_neg at h
    constructor
    · rw [min_eq_left]
      linarith
    · intro _
      exact ⟨hθ, h⟩

theorem buildSegments_length_nonneg (strokes : List Stroke) :
    ∀ s ∈ BallotIntersection.buildSegments strokes, 0 ≤ s.length := by
  intro s hs
  simp only [BallotIntersection.buildSegments, List.mem_flatMap, List.mem_map] at hs
  obtain ⟨p, _, i, _, rfl⟩ := hs
  exact Real.sqrt_nonneg _

theorem explainedFold_spec (P : Point) (dirA dirB : ℝ) (segs : List Segment)
    (hlen : ∀ s ∈ segs, 0 ≤ s.length) (a b : ℝ) :
    (segs.foldl (BallotExplainedInk.explainedStep P dirA dirB) (a, b)).1 =
      a + (segs.map Segment.length).sum ∧
    b ≤ (segs.foldl (BallotExplainedInk.explainedStep P dirA dirB) (a, b)).2 ∧
    (segs.foldl (BallotExplainedInk.explainedStep P dirA dirB) (a, b)).2 - b ≤
      (segs.foldl (BallotExplainedInk.explainedStep P dirA dirB) (a, b)).1 - a := by
  induction segs generalizing a b with
  | nil => simp
  | cons s ss ih =>
    have hs : 0 ≤ s.length := hlen s (by simp)
    have hss : ∀ t ∈ ss, 0 ≤ t.length := fun t ht => hlen t (List.mem_cons_of_mem _ ht)
    simp only [List.foldl_cons, List.map_cons, List.sum_cons,
      BallotExplainedInk.explainedStep]
    split
    · obtain ⟨h1, h2, h3⟩ := ih hss (a + s.length) (b + s.length)
      refine ⟨by rw [h1]; ring, by linarith, by linarith⟩
    · obtain ⟨h1, h2, h3⟩ := ih hss (a + s.length) b
      refine ⟨by rw [h1]; ring, by linarith, by linarith⟩

/-- C6: for every candidate and every segment list the pipeline produces
(`buildSegments` output), `calculateExplainedInkRatio` lies in `[0, 1]`, and
it is exactly 0 when the total segment length is 0. -/
theorem calculateExplainedInkRatio_bounds (bestCandidate : Candidate)
    (processedStrokes strokes : List Stroke) :
    0 ≤ BallotExplainedInk.calculateExplainedInkRatio bestCandidate processedStrokes
        (BallotIntersection.buildSegments strokes) ∧
    BallotExplainedInk.calculateExplainedInkRatio bestCandidate processedStrokes
        (BallotIntersection.buildSegments strokes) ≤ 1 ∧
    (((BallotIntersection.buildSegments strokes).map Segment.length).sum = 0 →
      BallotExplainedInk.calculateExplainedInkRatio bestCandidate processedStrokes
        (BallotIntersection.buildSegments strokes) = 0) := by
  have hlen := buildSegments_length_nonneg strokes
  obtain ⟨h1, h2, h3⟩ := explainedFold_spec bestCandidate.point
    (jsMod (bestCandidate.armAngles.getD 0 0) 180)
    (jsMod (bestCandidate.armAngles.getD 2 0) 180)
    (BallotIntersection.buildSegments strokes) hlen 0 0
  rw [BallotExplainedInk.calculateExplainedInkRatio]
  simp only [zero_add] at h1 h2 h3 ⊢
  split
  · rename_i hpos
    refine ⟨div_nonneg h2 (le_of_lt hpos), ?_, ?_⟩
    · rw [div_le_one hpos]
      linarith
    · intro hsum
      rw [h1] at hpos
      rw [hsum] at hpos
      exact absurd hpos (lt_irrefl 0)
  · exact ⟨le_rfl, by norm_num, fun _ => rfl⟩

theorem pair_sublist_cons {α : Type} (a b c : α) (cs : List α) :
    List.Sublist [a, b] (c :: cs) ↔ (a = c ∧ b ∈ cs) ∨ List.Sublist [a, b] cs := by
  rw [List.sublist_cons_iff]
  constructor
  · rintro (h | ⟨r, heq, hr⟩)
    · exact Or.inr h
    · injection heq with h1 h2
      subst h1 h2
      exact Or.inl ⟨rfl, List.singleton_sublist.mp hr⟩
  · rintro (⟨rfl, hb⟩ | h)
    · exact Or.inr ⟨[b], rfl, List.singleton_sublist.mpr hb⟩
    · exact Or.inl h

theorem pairScanInner_snd_iff (t m : ℝ) (c : Cluster) (ds : List Cluster) (b : Bool) :
    (BallotValidation.pairScanInner t m c ds b).2 = true ↔
      ∃ d ∈ ds, m ≤ BallotGeometry.dist c.centroid d.centroid := by
  induction ds generalizing b with
  | nil => simp [BallotValidation.pairScanInner]
  | cons d ds ih =>
    rw [BallotValidation.pairScanInner]
    split
    · rename_i h
      simp only [List.mem_cons]
      exact iff_of_true trivial ⟨d, Or.inl rfl, h⟩
    · rename_i h
      have tail_iff : ∀ b' : Bool, (BallotValidation.pairScanInner t m c ds b').2 = true ↔
          ∃ e ∈ d :: ds, m ≤ BallotGeometry.dist c.centroid e.centroid := by
        intro b'
        rw [ih b']
        constructor
        · rintro ⟨e, he, hm⟩
          exact ⟨e, List.mem_cons_of_mem _ he, hm⟩
        · rintro ⟨e, he, hm⟩
          rcases List.mem_cons.mp he with rfl | he'
          · exact absurd hm h
          · exact ⟨e, he', hm⟩
      split
      · exact tail_iff true
      · exact tail_iff b

theorem pairScanInner_fst_iff (t m : ℝ) (c : Cluster) (ds : List Cluster) (b : Bool)
    (hno : ∀ d ∈ ds, BallotGeometry.dist c.centroid d.centroid < m) :
    (BallotValidation.pairScanInner t m c ds b).1 = true ↔
      b = true ∨ ∃ d ∈ ds, t ≤ BallotGeometry.dist c.centroid d.centroid := by
  induction ds generalizing b with
  | nil => simp [BallotValidation.pairScanInner]
  | cons d ds ih =>
    have hd : BallotGeometry.dist c.centroid d.centroid < m := hno d (by simp)
    have hds : ∀ e ∈ ds, BallotGeometry.dist c.centroid e.centroid < m :=
      fun e he => hno e (List.mem_cons_of_mem _ he)
    rw [BallotValidation.pairScanInner, if_neg (not_le.mpr hd)]
    split
    · rename_i ht
      rw [ih true hds]
      simp only [List.mem_cons]
      constructor
      · intro _
        exact Or.inr ⟨d, Or.inl rfl, ht⟩
      · intro _
        exact Or.inl trivial
    · rename_i ht
      rw [ih b hds]
      simp only [List.mem_cons]
      constructor
      · rintro (hb | ⟨e, he, hte⟩)
        · exact Or.inl hb
        · exact Or.inr ⟨e, Or.inr he, hte⟩
      · rintro (hb | ⟨e, (rfl | he), hte⟩)
        · exact Or.inl hb
        · exact absurd hte ht
        · exact Or.inr ⟨e, he, hte⟩

theorem pairScanOuter_snd_iff (t m : ℝ) (cs : List Cluster) (b : Bool) :
    (BallotValidation.pairScanOuter t m cs b).2 = true ↔
      ∃ c d, List.Sublist [c, d] cs ∧ m ≤ BallotGeometry.dist c.centroid d.centroid := by
  induction cs generalizing b with
  | nil =>
    simp only [BallotValidation.pairScanOuter]
    constructor
    · intro h
      exact absurd h (by simp)
    · rintro ⟨c, d, hsub, -⟩
      have := hsub.length_le
      simp at this
  | cons c cs ih =>
    rw [BallotValidation.pairScanOuter]
    split
    · rename_i h
      obtain ⟨d, hd, hm⟩ := (pairScanInner_snd_iff t m c cs b).mp h
      exact iff_of_true rfl
        ⟨c, d, List.cons_sublist_cons.mpr (List.singleton_sublist.mpr hd), hm⟩
    · rename_i h
      have hno : ∀ d ∈ cs, ¬ m ≤ BallotGeometry.dist c.centroid d.centroid := by
        intro d hd hm
        exact h ((pairScanInner_snd_iff t m c cs b).mpr ⟨d, hd, hm⟩)
      rw [ih]
      constructor
      · rintro ⟨a, e, hsub, hm⟩
        exact ⟨a, e, hsub.cons c, hm⟩
      · rintro ⟨a, e, hsub, hm⟩
        rcases (pair_sublist_cons a e c cs).mp hsub with ⟨rfl, he⟩ | hsub'
        · exact absurd hm (hno e he)
        · exact ⟨a, e, hsub', hm⟩

theorem pairScanOuter_fst_iff (t m : ℝ) (cs : List Cluster) (b : Bool)
    (hno : ∀ c d, List.Sublist [c, d] cs →
      BallotGeometry.dist c.centroid d.centroid < m) :
    (BallotValidation.pairScanOuter t m cs b).1 = true ↔
      b = true ∨ ∃ c d, List.Sublist [c, d] cs ∧
        t ≤ BallotGeometry.dist c.centroid d.centroid := by
  induction cs generalizing b with
  | nil =>
    simp only [BallotValidation.pairScanOuter]
    constructor
    · exact fun h => Or.inl h
    · rintro (hb | ⟨c, d, hsub, -⟩)
      · exact hb
      · have := hsub.length_le
        simp at this
  | cons c cs ih =>
    have hhead : ∀ d ∈ cs, BallotGeometry.dist c.centroid d.centroid < m := by
      intro d hd
      exact hno c d (List.cons_sublist_cons.mpr (List.singleton_sublist.mpr hd))
    have htail : ∀ a e, List.Sublist [a, e] cs →
        BallotGeometry.dist a.centroid e.centroid < m :=
      fun a e hsub => hno a e (hsub.cons c)
    have hr2 : (BallotValidation.pairScanInner t m c cs b).2 ≠ true := by
      intro h
      obtain ⟨d, hd, hm⟩ := (pairScanInner_snd_iff t m c cs b).mp h
      exact absurd hm (not_le.mpr (hhead d hd))
    rw [BallotValidation.pairScanOuter]
    split
    · rename_i h
      exact absurd h hr2
    · rw [ih _ htail, pairScanInner_fst_iff t m c cs b hhead]
      constructor
      · rintro ((hb | ⟨d, hd, ht⟩) | ⟨a, e, hsub, ht⟩)
        · exact Or.inl hb
        · exact Or.inr ⟨c, d,
            List.cons_sublist_cons.mpr (List.singleton_sublist.mpr hd), ht⟩
        · exact Or.inr ⟨a, e, hsub.cons c, ht⟩
      · rintro (hb | ⟨a, e, hsub, ht⟩)
        · exact Or.inl (Or.inl hb)
        · rcases (pair_sublist_cons a e c cs).mp hsub with ⟨rfl, he⟩ | hsub'
          · exact Or.inl (Or.inr ⟨e, he, ht⟩)
          · exact Or.inr ⟨a, e, hsub', ht⟩

/-- C5: whenever at least two cross-valid clusters exist and both a pair at
or above the multi-mark separation threshold and a pair in the intentional
band are present among the cross-valid cluster centroids, the separation
stage of `validateMark` returns `invalid_type = "multi_mark"`, never the
intentional outcome. -/
theorem multiMark_precedence (validClusters : List Cluster) (scaleReference : ℝ)
    (hmulti : ∃ c d, List.Sublist [c, d] validClusters ∧
      scaleReference * BallotConfig.MULTI_MARK_MIN_RATIO ≤
        BallotGeometry.dist c.centroid d.centroid)
    (hint : ∃ c d, List.Sublist [c, d] validClusters ∧
      scaleReference * BallotConfig.INTENTIONAL_MIN_RATIO ≤
        BallotGeometry.dist c.centroid d.centroid ∧
      BallotGeometry.dist c.centroid d.centroid <
        scaleReference * BallotConfig.MULTI_MARK_MIN_RATIO) :
    BallotValidation.multiMarkStage validClusters scaleReference =
      some ⟨some false, "บัตรเสีย", some "multi_mark", "ทำเครื่องหมายมากกว่า 1 จุด"⟩ := by
  have hlen : 2 ≤ validClusters.length := by
    obtain ⟨c, d, hsub, -⟩ := hmulti
    simpa using hsub.length_le
  have hflag : (BallotValidation.pairScanOuter
      (scaleReference * BallotConfig.INTENTIONAL_MIN_RATIO)
      (scaleReference * BallotConfig.MULTI_MARK_MIN_RATIO) validClusters false).2 = true :=
    (pairScanOuter_snd_iff _ _ _ _).mpr hmulti
  rw [BallotValidation.multiMarkStage, if_pos hlen]
  simp only [hflag, if_true]

/-- C5 (witness): three concrete cross-valid cluster centroids at x = 0, 20,
100 with scale reference 60 — the (0, 20) pair is in the intentional band
(12 ≤ 20 < 60), the (0, 100) pair is at the multi-mark threshold
(60 ≤ 100) — and the stage returns `multi_mark`. -/
theorem multiMark_precedence_witness :
    BallotValidation.multiMarkStage
      [testCluster 0 0, testCluster 20 0, testCluster 100 0] 60 =
      some ⟨some false, "บัตรเสีย", some "multi_mark", "ทำเครื่องหมายมากกว่า 1 จุด"⟩ := by
  have h100 : BallotGeometry.dist (testCluster 0 0).centroid (testCluster 100 0).centroid = 100 := by
    refine ballot_dist_eval ?_ (by norm_num)
    simp only [testCluster]
    norm_num
  have h20 : BallotGeometry.dist (testCluster 0 0).centroid (testCluster 20 0).centroid = 20 := by
    refine ballot_dist_eval ?_ (by norm_num)
    simp only [testCluster]
    norm_num
  refine multiMark_precedence _ _ ⟨testCluster 0 0, testCluster 100 0, ?_, ?_⟩
    ⟨testCluster 0 0, testCluster 20 0, ?_, ?_, ?_⟩
  · exact List.cons_sublist_cons.mpr ((List.Sublist.refl _).cons _)
  · rw [h100, BallotConfig.MULTI_MARK_MIN_RATIO]
    norm_num
  · exact List.cons_sublist_cons.mpr (List.cons_sublist_cons.mpr (List.nil_sublist _))
  · rw [h20, BallotConfig.INTENTIONAL_MIN_RATIO]
    norm_num
  · rw [h20, BallotConfig.MULTI_MARK_MIN_RATIO]
    norm_num

/-- C2 (counterexample): two cross-valid clusters whose centroids are 20
apart under scale reference 60 — above the intentional threshold 12, below
the multi-mark threshold 60 — make the separation stage return
`invalid_type = "wrong_symbol"`, not a category tag distinct from
WRONG_SYMBOL. -/
theorem intentional_tag_cex :
    60 * BallotConfig.INTENTIONAL_MIN_RATIO ≤
      BallotGeometry.dist (testCluster 0 0).centroid (testCluster 20 0).centroid ∧
    BallotGeometry.dist (testCluster 0 0).centroid (testCluster 20 0).centroid <
      60 * BallotConfig.MULTI_MARK_MIN_RATIO ∧
    BallotValidation.multiMarkStage [testCluster 0 0, testCluster 20 0] 60 =
      some ⟨some false, "บัตรเสีย", some "wrong_symbol",
        "ทำเครื่องหมายเพิ่มเติมเพื่อให้บัตรเสีย"⟩ := by
  have h20 : BallotGeometry.dist (testCluster 0 0).centroid (testCluster 20 0).centroid = 20 := by
    refine ballot_dist_eval ?_ (by norm_num)
    simp only [testCluster]
    norm_num
  refine ⟨?_, ?_, ?_⟩
  · rw [h20, BallotConfig.INTENTIONAL_MIN_RATIO]
    norm_num
  · rw [h20, BallotConfig.MULTI_MARK_MIN_RATIO]
    norm_num
  · rw [BallotValidation.multiMarkStage, if_pos (by norm_num)]
    have hmulti : ¬ (60 * BallotConfig.MULTI_MARK_MIN_RATIO ≤
        BallotGeometry.dist (testCluster 0 0).centroid (testCluster 20 0).centroid) := by
      rw [h20, BallotConfig.MULTI_MARK_MIN_RATIO]
      norm_num
    have hint : 60 * BallotConfig.INTENTIONAL_MIN_RATIO ≤
        BallotGeometry.dist (testCluster 0 0).centroid (testCluster 20 0).centroid := by
      rw [h20, BallotConfig.INTENTIONAL_MIN_RATIO]
      norm_num
    simp only [BallotValidation.pairScanOuter, BallotValidation.pairScanInner,
      if_neg hmulti, if_pos hint]
    norm_num

/-- C2 (amended): when at least two cross-valid clusters exist, some pair of
centroids is at or above the intentional threshold, and no pair reaches the
multi-mark threshold, the separation stage of `validateMark` flags
intentional invalidation but returns it with the tag
`invalid_type = "wrong_symbol"` (distinguished from other wrong-symbol
rejections only by its reason string), not with a distinct INTENTIONAL
category tag. -/
theorem intentional_outcome_tag (validClusters : List Cluster) (scaleReference : ℝ)
    (hint : ∃ c d, List.Sublist [c, d] validClusters ∧
      scaleReference * BallotConfig.INTENTIONAL_MIN_RATIO ≤
        BallotGeometry.dist c.centroid d.centroid)
    (hnomulti : ∀ c d, List.Sublist [c, d] validClusters →
      BallotGeometry.dist c.centroid d.centroid <
        scaleReference * BallotConfig.MULTI_MARK_MIN_RATIO) :
    BallotValidation.multiMarkStage validClusters scaleReference =
      some ⟨some false, "บัตรเสีย", some "wrong_symbol",
        "ทำเครื่องหมายเพิ่มเติมเพื่อให้บัตรเสีย"⟩ := by
  have hlen : 2 ≤ validClusters.length := by
    obtain ⟨c, d, hsub, -⟩ := hint
    simpa using hsub.length_le
  have hflag2 : ¬ (BallotValidation.pairScanOuter
      (scaleReference * BallotConfig.INTENTIONAL_MIN_RATIO)
      (scaleReference * BallotConfig.MULTI_MARK_MIN_RATIO) validClusters false).2 = true := by
    intro h
    obtain ⟨c, d, hsub, hm⟩ := (pairScanOuter_snd_iff _ _ _ _).mp h
    exact absurd hm (not_le.mpr (hnomulti c d hsub))
  have hflag1 : (BallotValidation.pairScanOuter
      (scaleReference * BallotConfig.INTENTIONAL_MIN_RATIO)
      (scaleReference * BallotConfig.MULTI_MARK_MIN_RATIO) validClusters false).1 = true := by
    rw [pairScanOuter_fst_iff _ _ _ _ hnomulti]
    exact Or.inr hint
  rw [BallotValidation.multiMarkStage, if_pos hlen]
  simp only [hflag1, if_true, if_neg hflag2, Bool.false_eq_true]

/-- C2 (witness for the amended claim): centroids 20 apart under scale
reference 60 satisfy the intentional band with no multi-mark pair, and the
stage returns the `wrong_symbol`-tagged intentional outcome. -/
theorem intentional_outcome_tag_witness :
    BallotValidation.multiMarkStage [testCluster 0 0, testCluster 20 0] 60 =
      some ⟨some false, "บัตรเสีย", some "wrong_symbol",
        "ทำเครื่องหมายเพิ่มเติมเพื่อให้บัตรเสีย"⟩ := by
  have h20 : BallotGeometry.dist (testCluster 0 0).centroid (testCluster 20 0).centroid = 20 := by
    refine ballot_dist_eval ?_ (by norm_num)
    simp only [testCluster]
    norm_num
  refine intentional_outcome_tag _ _
    ⟨testCluster 0 0, testCluster 20 0, ?_, ?_⟩ ?_
  · exact List.cons_sublist_cons.mpr (List.cons_sublist_cons.mpr (List.nil_sublist _))
  · rw [h20, BallotConfig.INTENTIONAL_MIN_RATIO]
    norm_num
  · intro c d hsub
    rcases (pair_sublist_cons c d (testCluster 0 0) [testCluster 20 0]).mp hsub with
      ⟨rfl, hd⟩ | hsub'
    · rcases List.mem_singleton.mp hd with rfl
      rw [h20, BallotConfig.MULTI_MARK_MIN_RATIO]
      norm_num
    · rcases (pair_sublist_cons c d (testCluster 20 0) []).mp hsub' with ⟨rfl, hd⟩ | hsub''
      · simp at hd
      · have := hsub''.length_le
        simp at this

theorem getD_false_lt {vis : List Bool} {j : ℕ} (h : vis.getD j true = false) :
    j < vis.length := by
  by_contra hj
  rw [List.getD_eq_default _ _ (le_of_not_lt hj)] at h
  exact absurd h (by simp)

theorem getD_set_self {vis : List Bool} {j : ℕ} (hj : j < vis.length) :
    (vis.set j true).getD j true = true := by
  rw [List.getD_eq_getElem _ _ (by simpa using hj)]
  simp [List.getElem_set_self]

theorem getD_set_ne {vis : List Bool} {j k : ℕ} (h : j ≠ k) (d : Bool) :
    (vis.set j true).getD k d = vis.getD k d := by
  by_cases hk : k < vis.length
  · rw [List.getD_eq_getElem _ _ (by simpa using hk), List.getD_eq_getElem _ _ hk]
    exact List.getElem_set_ne h _
  · rw [List.getD_eq_default _ _ (by simpa using le_of_not_lt hk),
      List.getD_eq_default _ _ (le_of_not_lt hk)]

theorem expandLoop_spec (inters : List Intersection) (eps : ℝ) (js : List ℕ)
    (pts : List Intersection) (idxs : List ℕ) (vis : List Bool) (hjs : js.Nodup) :
    ∃ new : List ℕ,
      List.Sublist new js ∧
      (BallotTopology.expandLoop inters eps js pts idxs vis).2.1 = idxs ++ new ∧
      (BallotTopology.expandLoop inters eps js pts idxs vis).1 =
        pts ++ new.map (fun t => inters.getD t dummyInter) ∧
      (∀ k ∈ new, vis.getD k true = false) ∧
      (∀ k, (BallotTopology.expandLoop inters eps js pts idxs vis).2.2.getD k true = true ↔
        (vis.getD k true = true ∨ k ∈ new)) := by
  induction js generalizing pts idxs vis with
  | nil =>
    refine ⟨[], List.nil_sublist _, by simp [BallotTopology.expandLoop],
      by simp [BallotTopology.expandLoop], by simp, ?_⟩
    simp [BallotTopology.expandLoop]
  | cons j js ih =>
    have hnd : js.Nodup := hjs.of_cons
    have hjnotin : j ∉ js := (List.nodup_cons.mp hjs).1
    rw [BallotTopology.expandLoop]
    split
    · rename_i hv
      obtain ⟨new, hsub, hidx, hpts, hunv, hiff⟩ := ih pts idxs vis hnd
      exact ⟨new, hsub.cons j, hidx, hpts, hunv, hiff⟩
    · rename_i hv
      have hvj : vis.getD j true = false := Bool.not_eq_true _ ▸ (by
        revert hv
        cases h : vis.getD j true <;> simp)
      have hjlen : j < vis.length := getD_false_lt hvj
      split
      · obtain ⟨new, hsub, hidx, hpts, hunv, hiff⟩ :=
          ih (pts ++ [inters.getD j dummyInter]) (idxs ++ [j]) (vis.set j true) hnd
        refine ⟨j :: new, List.cons_sublist_cons.mpr hsub, ?_, ?_, ?_, ?_⟩
        · rw [hidx]
          simp
        · rw [hpts]
          simp
        · intro k hk
          rcases List.mem_cons.mp hk with rfl | hk'
          · exact hvj
          · have := hunv k hk'
            have hkj : j ≠ k := by
              rintro rfl
              rw [getD_set_self hjlen] at this
              exact absurd this (by simp)
            rwa [getD_set_ne hkj] at this
        · intro k
          rw [hiff k]
          by_cases hkj : k = j
          · subst hkj
            rw [getD_set_self hjlen]
            simp [hvj]
          · rw [getD_set_ne (Ne.symm hkj)]
            simp only [List.mem_cons]
            tauto
      · obtain ⟨new, hsub, hidx, hpts, hunv, hiff⟩ := ih pts idxs vis hnd
        exact ⟨new, hsub.cons j, hidx, hpts, hunv, hiff⟩

theorem expandFrom_spec (inters : List Intersection) (eps : ℝ) (i : ℕ) (vis : List Bool)
    (hvi : vis.getD i true = false) :
    ∃ new : List ℕ,
      List.Sublist new (List.range' (i + 1) (inters.length - (i + 1))) ∧
      (BallotTopology.expandFrom inters eps i vis).2.1 = i :: new ∧
      (BallotTopology.expandFrom inters eps i vis).1 =
        (i :: new).map (fun t => inters.getD t dummyInter) ∧
      (∀ k ∈ new, vis.getD k true = false ∧ k ≠ i) ∧
      (∀ k, (BallotTopology.expandFrom inters eps i vis).2.2.getD k true = true ↔
        (vis.getD k true = true ∨ k = i ∨ k ∈ new)) := by
  have hi : i < vis.length := getD_false_lt hvi
  obtain ⟨new, hsub, hidx, hpts, hunv, hiff⟩ := expandLoop_spec inters eps
    (List.range' (i + 1) (inters.length - (i + 1)))
    [inters.getD i dummyInter] [i] (vis.set i true) (List.nodup_range' _ _ _ (by norm_num))
  simp only [BallotTopology.expandFrom]
  refine ⟨new, hsub, hidx, by rw [hpts]; simp, ?_, ?_⟩
  · intro k hk
    have h := hunv k hk
    have hki : k ≠ i := by
      rintro rfl
      rw [getD_set_self hi] at h
      exact absurd h (by simp)
    rw [getD_set_ne (Ne.symm hki)] at h
    exact ⟨h, hki⟩
  · intro k
    rw [hiff k]
    by_cases hki : k = i
    · subst hki
      rw [getD_set_self hi]
      simp
    · rw [getD_set_ne (Ne.symm hki)]
      tauto

theorem outerLoop_points_map (inters : List Intersection) (eps : ℝ) :
    ∀ (is : List ℕ) (vis : List Bool),
      ∀ c ∈ BallotTopology.outerLoop inters eps is vis,
        c.points = c.indices.map (fun t => inters.getD t dummyInter) := by
  intro is
  induction is with
  | nil =>
    intro vis c hc
    simp [BallotTopology.outerLoop] at hc
  | cons i is ih =>
    intro vis c hc
    rw [BallotTopology.outerLoop] at hc
    split at hc
    · exact ih vis c hc
    · rename_i hv
      have hvi : vis.getD i true = false := by
        revert hv
        cases h : vis.getD i true <;> simp
      obtain ⟨new, hsub, hidx, hpts, hunv, hiff⟩ := expandFrom_spec inters eps i vis hvi
      rcases List.mem_cons.mp hc with rfl | hc'
      · rw [BallotTopology.mkCluster]
        simp only
        rw [hpts, hidx]
      · exact ih _ c hc'

theorem outerLoop_covers (inters : List Intersection) (eps : ℝ) :
    ∀ (is : List ℕ) (vis : List Bool) (k : ℕ),
      k ∈ is → vis.getD k true = false →
      ∃ c ∈ BallotTopology.outerLoop inters eps is vis, k ∈ c.indices := by
  intro is
  induction is with
  | nil =>
    intro vis k hk _
    exact absurd hk (List.not_mem_nil k)
  | cons i is ih =>
    intro vis k hk hvk
    rw [BallotTopology.outerLoop]
    split
    · rename_i hv
      rcases List.mem_cons.mp hk with rfl | hk'
      · rw [hvk] at hv
        exact absurd hv (by simp)
      · exact ih vis k hk' hvk
    · rename_i hv
      have hvi : vis.getD i true = false := by
        revert hv
        cases h : vis.getD i true <;> simp
      obtain ⟨new, hsub, hidx, hpts, hunv, hiff⟩ := expandFrom_spec inters eps i vis hvi
      by_cases hmem : k ∈ (BallotTopology.expandFrom inters eps i vis).2.1
      · refine ⟨_, List.mem_cons_self _ _, ?_⟩
        rw [BallotTopology.mkCluster]
        exact hmem
      · have hk2 : (BallotTopology.expandFrom inters eps i vis).2.2.getD k true = false := by
          rw [hidx] at hmem
          cases h : (BallotTopology.expandFrom inters eps i vis).2.2.getD k true
          · rfl
          · rcases (hiff k).mp h with hvis | rfl | hnew
            · rw [hvk] at hvis
              exact absurd hvis (by simp)
            · exact absurd (List.mem_cons_self k new) hmem
            · exact absurd (List.mem_cons_of_mem i hnew) hmem
        have hki : k ≠ i := by
          rintro rfl
          rw [hidx] at hmem
          exact hmem (List.mem_cons_self k new)
        rcases List.mem_cons.mp hk with rfl | hk'
        · exact absurd rfl hki
        · obtain ⟨c, hc, hkc⟩ := ih _ k hk' hk2
          exact ⟨c, List.mem_cons_of_mem _ hc, hkc⟩

theorem outerLoop_disjoint (inters : List Intersection) (eps : ℝ) :
    ∀ (is : List ℕ) (vis : List Bool),
      (∀ c ∈ BallotTopology.outerLoop inters eps is vis,
        c.indices.Nodup ∧ ∀ k ∈ c.indices, vis.getD k true = false) ∧
      List.Pairwise (fun c c' => ∀ k, k ∈ c.indices → k ∉ c'.indices)
        (BallotTopology.outerLoop inters eps is vis) := by
  intro is
  induction is with
  | nil =>
    intro vis
    simp [BallotTopology.outerLoop]
  | cons i is ih =>
    intro vis
    rw [BallotTopology.outerLoop]
    split
    · exact ih vis
    · rename_i hv
      have hvi : vis.getD i true = false := by
        revert hv
        cases h : vis.getD i true <;> simp
      obtain ⟨new, hsub, hidx, hpts, hunv, hiff⟩ := expandFrom_spec inters eps i vis hvi
      obtain ⟨ihall, ihpw⟩ := ih (BallotTopology.expandFrom inters eps i vis).2.2
      have headidx : (BallotTopology.mkCluster
          (BallotTopology.expandFrom inters eps i vis).1
          (BallotTopology.expandFrom inters eps i vis).2.1).indices = i :: new := by
        rw [BallotTopology.mkCluster]
        exact hidx
      have tail_unvis : ∀ c ∈ BallotTopology.outerLoop inters eps is
          (BallotTopology.expandFrom inters eps i vis).2.2,
          ∀ k ∈ c.indices, vis.getD k true = false ∧ k ≠ i ∧ k ∉ new := by
        intro c hc k hkc
        have h := (ihall c hc).2 k hkc
        have : ¬ (vis.getD k true = true ∨ k = i ∨ k ∈ new) := by
          intro hor
          rw [(hiff k).mpr hor] at h
          exact absurd h (by simp)
        push_neg at this
        refine ⟨?_, this.2.1, this.2.2⟩
        cases hvv : vis.getD k true
        · rfl
        · exact absurd hvv this.1
      constructor
      · intro c hc
        rcases List.mem_cons.mp hc with rfl | hc'
        · rw [headidx]
          constructor
          · rw [List.nodup_cons]
            refine ⟨fun hin => (hunv i hin).2 rfl,
              hsub.nodup (List.nodup_range' _ _ _ (by norm_num))⟩
          · intro k hk
            rcases List.mem_cons.mp hk with rfl | hk'
            · exact hvi
            · exact (hunv k hk').1
        · obtain ⟨hnd, hall⟩ := ihall c hc'
          exact ⟨hnd, fun k hk => ((tail_unvis c hc' k hk).1)⟩
      · rw [List.pairwise_cons]
        refine ⟨?_, ihpw⟩
        intro c hc k hk hkc
        rw [headidx] at hk
        obtain ⟨-, hki, hknew⟩ := tail_unvis c hc k hkc
        rcases List.mem_cons.mp hk with rfl | hk'
        · exact hki rfl
        · exact hknew hk'

/-- C10: for every intersection list and epsilon, the clusters returned by
`clusterIntersections` partition the input — intersection `k` appears in the
points list of exactly one cluster (by index identity, the embedding of the
source's object identity) — and consequently the linear cluster search in
`validateMark`'s candidate-building loop always succeeds: the
`strokesAtClusterFor` lookup resolves to a found cluster's
`strokesAtCluster`, never to its fallback branch. -/
theorem clusterIntersections_partition (inters : List Intersection) (eps : ℝ) (k : ℕ)
    (hk : k < inters.length) :
    (∃ c ∈ BallotTopology.clusterIntersections inters eps,
      k ∈ c.indices ∧ inters.getD k dummyInter ∈ c.points) ∧
    (∀ c ∈ BallotTopology.clusterIntersections inters eps,
      ∀ c' ∈ BallotTopology.clusterIntersections inters eps,
      k ∈ c.indices → k ∈ c'.indices → c = c') ∧
    (∃ c, (BallotTopology.clusterIntersections inters eps).find?
        (fun c => decide (inters.getD k dummyInter ∈ c.points)) = some c ∧
      BallotValidation.strokesAtClusterFor (BallotTopology.clusterIntersections inters eps)
        (inters.getD k dummyInter) = BallotValidation.strokesAtClusterOf c) := by
  have hne : ¬ inters.length = 0 := by omega
  have hrun : BallotTopology.clusterIntersections inters eps =
      BallotTopology.outerLoop inters eps (List.range inters.length)
        (List.replicate inters.length false) := by
    rw [BallotTopology.clusterIntersections, if_neg hne]
  have hvk : (List.replicate inters.length false).getD k true = false := by
    rw [List.getD_eq_getElem _ _ (by simpa using hk)]
    simp
  obtain ⟨c, hc, hkc⟩ := outerLoop_covers inters eps (List.range inters.length)
    (List.replicate inters.length false) k (List.mem_range.mpr hk) hvk
  have hpts := outerLoop_points_map inters eps (List.range inters.length)
    (List.replicate inters.length false) c hc
  have hmemc : inters.getD k dummyInter ∈ c.points := by
    rw [hpts]
    exact List.mem_map_of_mem _ hkc
  obtain ⟨-, hpw⟩ := outerLoop_disjoint inters eps (List.range inters.length)
    (List.replicate inters.length false)
  have huniq : ∀ a ∈ BallotTopology.clusterIntersections inters eps,
      ∀ b ∈ BallotTopology.clusterIntersections inters eps,
      k ∈ a.indices → k ∈ b.indices → a = b := by
    rw [hrun]
    intro a ha b hb hka hkb
    by_contra hab
    have hsym : Symmetric (fun c c' : Cluster => ∀ t, t ∈ c.indices → t ∉ c'.indices) := by
      intro x y hxy t hty htx
      exact hxy t htx hty
    exact hpw.forall hsym ha hb hab k hka hkb
  have hfind : ((BallotTopology.clusterIntersections inters eps).find?
      (fun c => decide (inters.getD k dummyInter ∈ c.points))).isSome := by
    rw [List.find?_isSome]
    refine ⟨c, ?_, by simpa using hmemc⟩
    rw [hrun]
    exact hc
  obtain ⟨cf, hcf⟩ := Option.isSome_iff_exists.mp hfind
  refine ⟨⟨c, by rw [hrun]; exact hc, hkc, hmemc⟩, huniq, cf, hcf, ?_⟩
  rw [BallotValidation.strokesAtClusterFor, hcf]

/-- C10 (witness): the partition and successful lookup at the first
intersection of the concrete three-point list `chainEx`. -/
theorem clusterIntersections_partition_witness :
    (∃ c ∈ BallotTopology.clusterIntersections chainEx 6,
      0 ∈ c.indices ∧ chainEx.getD 0 dummyInter ∈ c.points) ∧
    (∀ c ∈ BallotTopology.clusterIntersections chainEx 6,
      ∀ c' ∈ BallotTopology.clusterIntersections chainEx 6,
      0 ∈ c.indices → 0 ∈ c'.indices → c = c') ∧
    (∃ c, (BallotTopology.clusterIntersections chainEx 6).find?
        (fun c => decide (chainEx.getD 0 dummyInter ∈ c.points)) = some c ∧
      BallotValidation.strokesAtClusterFor (BallotTopology.clusterIntersections chainEx 6)
        (chainEx.getD 0 dummyInter) = BallotValidation.strokesAtClusterOf c) :=
  clusterIntersections_partition chainEx 6 0 (by norm_num [chainEx])

theorem chainEx_dist01 :
    BallotGeometry.dist (testInter 0 0).pt (testInter 10 0).pt = 10 := by
  refine ballot_dist_eval ?_ (by norm_num)
  simp only [testInter, Intersection.pt]
  norm_num

theorem chainEx_dist02 :
    BallotGeometry.dist (testInter 0 0).pt (testInter 5 0).pt = 5 := by
  refine ballot_dist_eval ?_ (by norm_num)
  simp only [testInter, Intersection.pt]
  norm_num

theorem chainEx_dist21 :
    BallotGeometry.dist (testInter 5 0).pt (testInter 10 0).pt = 5 := by
  refine ballot_dist_eval ?_ (by norm_num)
  simp only [testInter, Intersection.pt]
  norm_num

theorem chainEx_run :
    BallotTopology.clusterIntersections chainEx 6 =
      [BallotTopology.mkCluster [testInter 0 0, testInter 5 0] [0, 2],
       BallotTopology.mkCluster [testInter 10 0] [1]] := by
  norm_num [BallotTopology.clusterIntersections, BallotTopology.outerLoop,
    BallotTopology.expandFrom, BallotTopology.expandLoop, chainEx,
    chainEx_dist01, chainEx_dist02, chainEx_dist21]

theorem reachableIn_symm (inters : List Intersection) (eps : ℝ) :
    Symmetric (ReachableIn inters eps) := by
  apply Relation.ReflTransGen.symmetric
  rintro u v ⟨hu, hv, hd⟩
  exact ⟨hv, hu, by rwa [ballot_dist_comm]⟩

theorem getD_mem {l : List Intersection} {j : ℕ} (hj : j < l.length) :
    l.getD j dummyInter ∈ l := by
  rw [List.getD_eq_getElem _ _ hj]
  exact List.getElem_mem _

theorem expandLoop_reachable (inters : List Intersection) (eps : ℝ) (seed : Intersection) :
    ∀ (js : List ℕ) (pts : List Intersection) (idxs : List ℕ) (vis : List Bool),
      (∀ j ∈ js, j < inters.length) →
      (∀ p ∈ pts, p ∈ inters ∧ ReachableIn inters eps seed p) →
      ∀ p ∈ (BallotTopology.expandLoop inters eps js pts idxs vis).1,
        p ∈ inters ∧ ReachableIn inters eps seed p := by
  intro js
  induction js with
  | nil =>
    intro pts idxs vis _ hpts p hp
    rw [BallotTopology.expandLoop] at hp
    exact hpts p hp
  | cons j js ih =>
    intro pts idxs vis hjs hpts p hp
    have hjlt : j < inters.length := hjs j (by simp)
    have hjs' : ∀ t ∈ js, t < inters.length := fun t ht => hjs t (List.mem_cons_of_mem _ ht)
    rw [BallotTopology.expandLoop] at hp
    split at hp
    · exact ih pts idxs vis hjs' hpts p hp
    · split at hp
      · rename_i hnear
        refine ih _ _ _ hjs' ?_ p hp
        intro q hq
        rcases List.mem_append.mp hq with hq' | hq'
        · exact hpts q hq'
        · rcases List.mem_singleton.mp hq' with rfl
          obtain ⟨pt, hpt, hd⟩ := hnear
          obtain ⟨hptin, hptreach⟩ := hpts pt hpt
          exact ⟨getD_mem hjlt,
            hptreach.tail ⟨hptin, getD_mem hjlt, hd⟩⟩
      · exact ih pts idxs vis hjs' hpts p hp

theorem outerLoop_reachable (inters : List Intersection) (eps : ℝ) :
    ∀ (is : List ℕ) (vis : List Bool),
      (∀ i ∈ is, i < inters.length) →
      ∀ c ∈ BallotTopology.outerLoop inters eps is vis,
        ∀ a ∈ c.points, ∀ b ∈ c.points, ReachableIn inters eps a b := by
  intro is
  induction is with
  | nil =>
    intro vis _ c hc
    simp [BallotTopology.outerLoop] at hc
  | cons i is ih =>
    intro vis his c hc
    have hilt : i < inters.length := his i (by simp)
    have his' : ∀ t ∈ is, t < inters.length := fun t ht => his t (List.mem_cons_of_mem _ ht)
    rw [BallotTopology.outerLoop] at hc
    split at hc
    · exact ih vis his' c hc
    · rcases List.mem_cons.mp hc with rfl | hc'
      · intro a ha b hb
        have hall := expandLoop_reachable inters eps (inters.getD i dummyInter)
          (List.range' (i + 1) (inters.length - (i + 1)))
          [inters.getD i dummyInter] [i] (vis.set i true)
          (fun j hj => by
            have := List.mem_range'.mp hj
            omega)
          (fun p hp => by
            rcases List.mem_singleton.mp hp with rfl
            exact ⟨getD_mem hilt, Relation.ReflTransGen.refl⟩)
        have hpts : (BallotTopology.mkCluster (BallotTopology.expandFrom inters eps i vis).1
            (BallotTopology.expandFrom inters eps i vis).2.1).points =
            (BallotTopology.expandFrom inters eps i vis).1 := rfl
        rw [hpts] at ha hb
        rw [BallotTopology.expandFrom] at ha hb
        have hra := (hall a ha).2
        have hrb := (hall b hb).2
        exact (reachableIn_symm inters eps hra).trans hrb
      · exact ih _ his' c hc'

/-- C3 (counterexample): in the list `chainEx` with epsilon 6, the
intersections at (0,0) and (10,0) are pairwise-reachable through (5,0)
(hops of 5 and 5), yet `clusterIntersections` puts them in different
clusters: the single forward pass absorbs (5,0) into the first cluster only
after the scan has already passed (10,0). -/
theorem cluster_chain_cex :
    ReachableIn chainEx 6 (testInter 0 0) (testInter 10 0) ∧
    ¬ ∃ c ∈ BallotTopology.clusterIntersections chainEx 6,
        testInter 0 0 ∈ c.points ∧ testInter 10 0 ∈ c.points := by
  constructor
  · refine Relation.ReflTransGen.tail (b := testInter 5 0)
      (Relation.ReflTransGen.single ?_) ?_
    · exact ⟨by simp [chainEx], by simp [chainEx], by rw [chainEx_dist02]; norm_num⟩
    · exact ⟨by simp [chainEx], by simp [chainEx], by rw [chainEx_dist21]; norm_num⟩
  · rw [chainEx_run]
    rintro ⟨c, hc, h0, h1⟩
    rcases List.mem_cons.mp hc with rfl | hc'
    · norm_num [BallotTopology.mkCluster, testInter, Intersection.mk.injEq] at h1
    · rcases List.mem_singleton.mp hc' with rfl
      norm_num [BallotTopology.mkCluster, testInter, Intersection.mk.injEq] at h0

/-- C3 (amended): any two intersections that `clusterIntersections` places in
the same cluster are pairwise-reachable (each cluster is chain-connected at
epsilon); the converse — pairwise-reachable intersections always share a
cluster — fails, because the greedy expansion makes a single forward pass. -/
theorem clusterIntersections_members_reachable (inters : List Intersection) (eps : ℝ)
    (c : Cluster) (hc : c ∈ BallotTopology.clusterIntersections inters eps) :
    ∀ a ∈ c.points, ∀ b ∈ c.points, ReachableIn inters eps a b := by
  rw [BallotTopology.clusterIntersections] at hc
  split at hc
  · exact absurd hc (List.not_mem_nil c)
  · exact outerLoop_reachable inters eps (List.range inters.length)
      (List.replicate inters.length false)
      (fun i hi => List.mem_range.mp hi) c hc

/-- C3 (witness): in the concrete run on `chainEx`, the first cluster
contains (0,0) and (5,0), which are therefore pairwise-reachable. -/
theorem clusterIntersections_members_reachable_witness :
    ReachableIn chainEx 6 (testInter 0 0) (testInter 5 0) :=
  clusterIntersections_members_reachable chainEx 6
    (BallotTopology.mkCluster [testInter 0 0, testInter 5 0] [0, 2])
    (by rw [chainEx_run]; simp)
    (testInter 0 0) (by simp [BallotTopology.mkCluster])
    (testInter 5 0) (by simp [BallotTopology.mkCluster])

theorem monoEx_dist01 :
    BallotGeometry.dist (testInter 0 0).pt (testInter 16 0).pt = 16 := by
  refine ballot_dist_eval ?_ (by norm_num)
  simp only [testInter, Intersection.pt]
  norm_num

theorem monoEx_dist02 :
    BallotGeometry.dist (testInter 0 0).pt (testInter 10 0).pt = 10 := by
  refine ballot_dist_eval ?_ (by norm_num)
  simp only [testInter, Intersection.pt]
  norm_num

theorem monoEx_dist12 :
    BallotGeometry.dist (testInter 16 0).pt (testInter 10 0).pt = 6 := by
  refine ballot_dist_eval ?_ (by norm_num)
  simp only [testInter, Intersection.pt]
  norm_num

theorem monoEx_run6 :
    BallotTopology.clusterIntersections monoEx 6 =
      [BallotTopology.mkCluster [testInter 0 0] [0],
       BallotTopology.mkCluster [testInter 16 0, testInter 10 0] [1, 2]] := by
  norm_num [BallotTopology.clusterIntersections, BallotTopology.outerLoop,
    BallotTopology.expandFrom, BallotTopology.expandLoop, monoEx,
    monoEx_dist01, monoEx_dist02, monoEx_dist12]

theorem monoEx_run10 :
    BallotTopology.clusterIntersections monoEx 10 =
      [BallotTopology.mkCluster [testInter 0 0, testInter 10 0] [0, 2],
       BallotTopology.mkCluster [testInter 16 0] [1]] := by
  norm_num [BallotTopology.clusterIntersections, BallotTopology.outerLoop,
    BallotTopology.expandFrom, BallotTopology.expandLoop, monoEx,
    monoEx_dist01, monoEx_dist02, monoEx_dist12]

/-- C8 (counterexample): for the fixed intersections `monoEx`, growing the
epsilon from 6 to 10 splits the cluster `{(16,0), (10,0)}`: at epsilon 10 the
first seed steals (10,0), leaving (16,0) alone, so that cluster's member set
is contained in no single cluster of the larger-epsilon run. -/
theorem cluster_monotone_cex :
    (6 : ℝ) ≤ 10 ∧
    ¬ ∀ c ∈ BallotTopology.clusterIntersections monoEx 6,
        ∃ c' ∈ BallotTopology.clusterIntersections monoEx 10,
          ∀ p ∈ c.points, p ∈ c'.points := by
  refine ⟨by norm_num, fun h => ?_⟩
  obtain ⟨c', hc', hsub⟩ := h
    (BallotTopology.mkCluster [testInter 16 0, testInter 10 0] [1, 2])
    (by rw [monoEx_run6]; simp)
  rw [monoEx_run10] at hc'
  rcases List.mem_cons.mp hc' with rfl | hc''
  · have := hsub (testInter 16 0) (by simp [BallotTopology.mkCluster])
    norm_num [BallotTopology.mkCluster, testInter, Intersection.mk.injEq] at this
  · rcases List.mem_singleton.mp hc'' with rfl
    have := hsub (testInter 10 0) (by simp [BallotTopology.mkCluster])
    norm_num [BallotTopology.mkCluster, testInter, Intersection.mk.injEq] at this

theorem expandLoop_mono (inters : List Intersection) (e1 e2 : ℝ) (h12 : e1 ≤ e2) :
    ∀ (js : List ℕ) (pts1 pts2 : List Intersection) (idxs1 idxs2 : List ℕ)
      (vis1 vis2 : List Bool),
      js.Nodup →
      (∀ j ∈ js, vis1.getD j true = false ∧ vis2.getD j true = false) →
      (∀ p ∈ pts1, p ∈ pts2) →
      ∀ p ∈ (BallotTopology.expandLoop inters e1 js pts1 idxs1 vis1).1,
        p ∈ (BallotTopology.expandLoop inters e2 js pts2 idxs2 vis2).1 := by
  intro js
  induction js with
  | nil =>
    intro pts1 pts2 idxs1 idxs2 vis1 vis2 _ _ hsub p hp
    rw [BallotTopology.expandLoop] at hp ⊢
    exact hsub p hp
  | cons j js ih =>
    intro pts1 pts2 idxs1 idxs2 vis1 vis2 hnd hvis hsub p hp
    have hv1 : vis1.getD j true = false := (hvis j (by simp)).1
    have hv2 : vis2.getD j true = false := (hvis j (by simp)).2
    have hnd' : js.Nodup := hnd.of_cons
    have hjnot : j ∉ js := (List.nodup_cons.mp hnd).1
    have hvis' : ∀ t ∈ js, vis1.getD t true = false ∧ vis2.getD t true = false :=
      fun t ht => hvis t (List.mem_cons_of_mem _ ht)
    have hvisset : ∀ t ∈ js, (vis1.set j true).getD t true = false ∧
        (vis2.set j true).getD t true = false := by
      intro t ht
      have htj : j ≠ t := fun h => hjnot (h ▸ ht)
      rw [getD_set_ne htj, getD_set_ne htj]
      exact hvis' t ht
    have hvisset1 : ∀ t ∈ js, vis1.getD t true = false ∧
        (vis2.set j true).getD t true = false := by
      intro t ht
      have htj : j ≠ t := fun h => hjnot (h ▸ ht)
      rw [getD_set_ne htj]
      exact hvis' t ht
    rw [BallotTopology.expandLoop] at hp ⊢
    rw [if_neg (by simp only [hv1]; simp)] at hp
    rw [if_neg (by simp only [hv2]; simp)]
    by_cases h1 : ∃ pt ∈ pts1,
        BallotGeometry.dist pt.pt (inters.getD j dummyInter).pt ≤ e1
    · rw [if_pos h1] at hp
      have h2 : ∃ pt ∈ pts2,
          BallotGeometry.dist pt.pt (inters.getD j dummyInter).pt ≤ e2 := by
        obtain ⟨pt, hpt, hd⟩ := h1
        exact ⟨pt, hsub pt hpt, hd.trans h12⟩
      rw [if_pos h2]
      refine ih _ _ _ _ _ _ hnd' hvisset ?_ p hp
      intro q hq
      rcases List.mem_append.mp hq with hq' | hq'
      · exact List.mem_append.mpr (Or.inl (hsub q hq'))
      · exact List.mem_append.mpr (Or.inr hq')
    · rw [if_neg h1] at hp
      by_cases h2 : ∃ pt ∈ pts2,
          BallotGeometry.dist pt.pt (inters.getD j dummyInter).pt ≤ e2
      · rw [if_pos h2]
        refine ih _ _ _ _ _ _ hnd' hvisset1 ?_ p hp
        intro q hq
        exact List.mem_append.mpr (Or.inl (hsub q hq))
      · rw [if_neg h2]
        exact ih _ _ _ _ _ _ hnd' hvis' hsub p hp

/-- C8 (amended): monotonicity holds for the cluster seeded at the first
intersection: for a fixed intersection list and `e1 ≤ e2`, every member of
the first cluster produced at `e1` is a member of the first cluster produced
at `e2`.  For later clusters the superset property fails (see the
counterexample): an earlier seed can steal a point at the larger epsilon. -/
theorem clusterIntersections_first_monotone (inters : List Intersection)
    (e1 e2 : ℝ) (h12 : e1 ≤ e2) (hne : inters ≠ []) :
    ∀ p ∈ ((BallotTopology.clusterIntersections inters e1).headD emptyCluster).points,
      p ∈ ((BallotTopology.clusterIntersections inters e2).headD emptyCluster).points := by
  obtain ⟨n', hn⟩ : ∃ n', inters.length = n' + 1 := by
    cases h : inters.length with
    | zero => exact absurd (List.length_eq_zero.mp h) hne
    | succ n' => exact ⟨n', rfl⟩
  have hrange : List.range inters.length = 0 :: (List.range n').map Nat.succ := by
    rw [hn, List.range_succ_eq_map]
  have hv0 : (List.replicate inters.length false).getD 0 true = false := by
    rw [List.getD_eq_getElem _ _ (by simp [hn])]
    simp
  have hhead : ∀ e : ℝ,
      (BallotTopology.clusterIntersections inters e).headD emptyCluster =
        BallotTopology.mkCluster
          (BallotTopology.expandFrom inters e 0 (List.replicate inters.length false)).1
          (BallotTopology.expandFrom inters e 0 (List.replicate inters.length false)).2.1 := by
    intro e
    rw [BallotTopology.clusterIntersections, if_neg (by simp [hn]), hrange,
      BallotTopology.outerLoop, if_neg (by simp only [hv0]; simp)]
    rfl
  rw [hhead e1, hhead e2]
  intro p hp
  have hvis : ∀ t ∈ List.range' (0 + 1) (inters.length - (0 + 1)),
      ((List.replicate inters.length false).set 0 true).getD t true = false ∧
      ((List.replicate inters.length false).set 0 true).getD t true = false := by
    intro t ht
    obtain ⟨ht1, ht2⟩ := List.mem_range'.mp ht
    have htlt : t < inters.length := by omega
    have h0t : (0 : ℕ) ≠ t := by omega
    rw [getD_set_ne h0t]
    constructor <;>
      · rw [List.getD_eq_getElem _ _ (by simpa using htlt)]
        simp
  exact expandLoop_mono inters e1 e2 h12
    (List.range' (0 + 1) (inters.length - (0 + 1)))
    _ _ _ _ _ _ (List.nodup_range' _ _ _ (by norm_num)) hvis (fun q hq => hq) p hp

/-- C8 (witness): on `monoEx` with epsilons 6 ≤ 10, the member (0,0) of the
first cluster at epsilon 6 is still in the first cluster at epsilon 10. -/
theorem clusterIntersections_first_monotone_witness :
    testInter 0 0 ∈
      ((BallotTopology.clusterIntersections monoEx 10).headD emptyCluster).points :=
  clusterIntersections_first_monotone monoEx 6 10 (by norm_num)
    (by simp [monoEx]) (testInter 0 0)
    (by rw [monoEx_run6]; simp [BallotTopology.mkCluster])

theorem ballot_dist_self (p : Point) : BallotGeometry.dist p p = 0 :=
  ballot_dist_eval (by ring) le_rfl

theorem pointToLineDistance_self (p : Point) (θ : ℝ) :
    BallotGeometry.pointToLineDistance p p θ = 0 := by
  simp [BallotGeometry.pointToLineDistance]

theorem deg_pi_div_two : π / 2 * 180 / π = 90 := by
  have h : π ≠ 0 := Real.pi_ne_zero
  field_simp
  ring

theorem jsMod_0_180 : jsMod 0 180 = 0 := jsMod_of_nonneg_lt le_rfl (by norm_num)

theorem jsMod_90_180 : jsMod 90 180 = 90 :=
  jsMod_of_nonneg_lt (by norm_num) (by norm_num)

theorem jsMod_180_180 : jsMod 180 180 = 0 := by
  rw [jsMod_of_le_lt_two (by norm_num) (by norm_num) (by norm_num)]
  norm_num

theorem jsMod_270_180 : jsMod 270 180 = 90 := by
  rw [jsMod_of_le_lt_two (by norm_num) (by norm_num) (by norm_num)]
  norm_num

theorem normDeg180_H :
    BallotTopology.normDeg180 ⟨140, 200⟩ ⟨260, 200⟩ = 0 := by
  rw [BallotTopology.normDeg180]
  norm_num
  rw [atan2_zero_pos (by norm_num)]
  rw [zero_mul, zero_div, jsMod_0_180, zero_add, jsMod_180_180]

theorem normDeg180_V :
    BallotTopology.normDeg180 ⟨200, 140⟩ ⟨200, 260⟩ = 90 := by
  rw [BallotTopology.normDeg180]
  norm_num
  rw [atan2_pos_zero (by norm_num)]
  rw [deg_pi_div_two, jsMod_90_180]
  norm_num [jsMod_270_180]

theorem star_dist_H :
    BallotGeometry.dist (Point.mk 140 200) (Point.mk 260 200) = 120 :=
  ballot_dist_eval (by norm_num) (by norm_num)

theorem star_dist_V :
    BallotGeometry.dist (Point.mk 200 140) (Point.mk 200 260) = 120 :=
  ballot_dist_eval (by norm_num) (by norm_num)

theorem star_mid_H :
    BallotGeometry.segmentMidpoint ⟨140, 200⟩ ⟨260, 200⟩ = ⟨200, 200⟩ := by
  rw [BallotGeometry.segmentMidpoint]
  norm_num

theorem star_mid_V :
    BallotGeometry.segmentMidpoint ⟨200, 140⟩ ⟨200, 260⟩ = ⟨200, 200⟩ := by
  rw [BallotGeometry.segmentMidpoint]
  norm_num

theorem star_clusterAngles :
    BallotTopology.clusterAngles [⟨0, 120⟩, ⟨90, 120⟩] 30 = [⟨0, 120⟩, ⟨90, 120⟩] := by
  have habs90 : |(90 : ℝ)| = 90 := abs_of_nonneg (by norm_num)
  have hsort : sortBy (fun a b : BallotTopology.AngleW => a.angle ≤ b.angle)
      [⟨0, 120⟩, ⟨90, 120⟩] = [⟨0, 120⟩, ⟨90, 120⟩] := by
    simp only [sortBy, List.foldr_cons, List.foldr_nil, insertBy]
    norm_num
  rw [BallotTopology.clusterAngles, hsort]
  simp only [BallotTopology.sweepModes]
  norm_num [habs90]
  simp only [sortBy, List.foldr_cons, List.foldr_nil, insertBy]
  norm_num

theorem star_branchCount :
    BallotTopology.countGlobalBranches ⟨200, 200⟩ starStrokes = 2 := by
  have hpairs : BallotTopology.strokeSegPairs starStrokes =
      [(⟨140, 200⟩, ⟨260, 200⟩), (⟨200, 140⟩, ⟨200, 260⟩)] := rfl
  rw [BallotTopology.countGlobalBranches, hpairs]
  have hfm : List.filterMap (fun pq : Point × Point =>
      if BallotGeometry.dist (BallotGeometry.segmentMidpoint pq.1 pq.2) ⟨200, 200⟩ ≤
          BallotConfig.TOPOLOGY_ANALYSIS_RADIUS_PX then
        some (BallotTopology.AngleW.mk (BallotTopology.normDeg180 pq.1 pq.2)
          (BallotGeometry.dist pq.1 pq.2))
      else none)
      [(⟨140, 200⟩, ⟨260, 200⟩), (⟨200, 140⟩, ⟨200, 260⟩)] =
      [⟨0, 120⟩, ⟨90, 120⟩] := by
    simp only [List.filterMap_cons, List.filterMap_nil, star_mid_H, star_mid_V,
      ballot_dist_self, normDeg180_H, normDeg180_V, star_dist_H, star_dist_V,
      BallotConfig.TOPOLOGY_ANALYSIS_RADIUS_PX]
    norm_num
  simp only [hfm, BallotConfig.BRANCH_ANGLE_CLUSTER_TOL_DEG]
  rw [star_clusterAngles]
  norm_num

theorem star_segments :
    BallotIntersection.buildSegments starStrokes =
      [⟨⟨140, 200⟩, ⟨260, 200⟩, 0, 0, 120, ⟨140, 200⟩, ⟨260, 200⟩⟩,
       ⟨⟨200, 140⟩, ⟨200, 260⟩, 1, 0, 120, ⟨200, 140⟩, ⟨200, 260⟩⟩] := by
  simp only [BallotIntersection.buildSegments, starStrokes]
  have hr1 : List.range 1 = [0] := rfl
  norm_num [star_dist_H, star_dist_V, List.enum, hr1, List.map_cons,
    List.map_nil, List.getD_cons_zero, List.getD_cons_succ]

theorem star_explainedRatio :
    BallotExplainedInk.calculateExplainedInkRatio starCandidate starStrokes
      (BallotIntersection.buildSegments starStrokes) = 1 := by
  rw [star_segments, BallotExplainedInk.calculateExplainedInkRatio]
  simp only [starCandidate, List.getD_cons_zero, List.getD_cons_succ]
  rw [jsMod_0_180, jsMod_90_180]
  simp only [List.foldl_cons, List.foldl_nil, BallotExplainedInk.explainedStep,
    star_mid_H, star_mid_V, normDeg180_H, normDeg180_V,
    pointToLineDistance_self, BallotConfig.ARM_CORRIDOR_ANGLE_TOL_DEG,
    BallotConfig.ARM_CORRIDOR_DIST_PX]
  norm_num

/-- C1: the best-candidate stage of `validateMark` contains no multi-line
star check: with 3 strokes, a best candidate stamped
`strokesAtIntersection = 3` (its containing cluster saw 3 distinct strokes),
a computed branch count of 2 (the horizontal/vertical ink around the
candidate), balanced arms and a full explained-ink ratio, the stage returns
`valid = true` instead of the WRONG_SYMBOL rejection the specification
requires for `strokesAtIntersection ≥ 3`.  `strokesAtIntersection` is
computed and stamped on candidates but never read by any decision. -/
theorem star_check_missing :
    starCandidate.strokesAtIntersection = 3 ∧
    3 ≤ starCandidate.strokesAtIntersection ∧
    BallotValidation.bestCandidateStage 3 starStrokes
        (BallotIntersection.buildSegments starStrokes) [starCandidate] =
      ⟨some true, "บัตรดี", none, ""⟩ := by
  refine ⟨rfl, by norm_num [starCandidate], ?_⟩
  rw [BallotValidation.bestCandidateStage]
  simp only [List.foldl_nil]
  have hpoint : starCandidate.point = ⟨200, 200⟩ := rfl
  rw [hpoint, star_branchCount]
  norm_num
  rw [BallotValidation.explainedInkStage]
  norm_num [star_explainedRatio, BallotConfig.MIN_EXPLAINED_INK_RATIO]

theorem multiMarkStage_shape (validClusters : List Cluster) (scaleReference : ℝ)
    (r : VResult)
    (h : BallotValidation.multiMarkStage validClusters scaleReference = some r) :
    r.valid = some false ∧
      (r.invalid_type = some "multi_mark" ∨ r.invalid_type = some "wrong_symbol") := by
  rw [BallotValidation.multiMarkStage] at h
  split at h
  · split at h
    · injection h with h'
      subst h'
      exact ⟨rfl, Or.inl rfl⟩
    · split at h
      · injection h with h'
        subst h'
        exact ⟨rfl, Or.inr rfl⟩
      · exact absurd h (by simp)
  · exact absurd h (by simp)

theorem explainedInkStage_shape (strokeCount : ℕ) (bestCandidate : Candidate)
    (processedStrokes : List Stroke) (segments : List Segment) :
    ((BallotValidation.explainedInkStage strokeCount bestCandidate processedStrokes
        segments).valid = some true ∧
      (BallotValidation.explainedInkStage strokeCount bestCandidate processedStrokes
        segments).invalid_type = none) ∨
    ((BallotValidation.explainedInkStage strokeCount bestCandidate processedStrokes
        segments).valid = some false ∧
      (BallotValidation.explainedInkStage strokeCount bestCandidate processedStrokes
        segments).invalid_type = some "extra_writing") := by
  rw [BallotValidation.explainedInkStage]
  repeat' split
  all_goals
    first
      | exact Or.inr ⟨rfl, rfl⟩
      | exact Or.inl ⟨rfl, rfl⟩

theorem bestCandidateStage_shape (strokeCount : ℕ) (processedStrokes : List Stroke)
    (segments : List Segment) (crossCandidates : List Candidate) :
    ((BallotValidation.bestCandidateStage strokeCount processedStrokes segments
        crossCandidates).valid = some true ∧
      (BallotValidation.bestCandidateStage strokeCount processedStrokes segments
        crossCandidates).invalid_type = none) ∨
    ((BallotValidation.bestCandidateStage strokeCount processedStrokes segments
        crossCandidates).valid = some false ∧
      ((BallotValidation.bestCandidateStage strokeCount processedStrokes segments
        crossCandidates).invalid_type = some "wrong_symbol" ∨
       (BallotValidation.bestCandidateStage strokeCount processedStrokes segments
        crossCandidates).invalid_type = some "extra_writing")) := by
  rw [BallotValidation.bestCandidateStage.eq_def]
  split
  · exact Or.inr ⟨rfl, Or.inl rfl⟩
  · rename_i c0 rest
    dsimp only
    split
    · exact Or.inr ⟨rfl, Or.inl rfl⟩
    · split
      · split
        · split
          · rcases explainedInkStage_shape strokeCount _ processedStrokes segments with
              ⟨h1, h2⟩ | ⟨h1, h2⟩
            · exact Or.inl ⟨h1, h2⟩
            · exact Or.inr ⟨h1, Or.inr h2⟩
          · split
            · exact Or.inr ⟨rfl, Or.inl rfl⟩
            · rcases explainedInkStage_shape strokeCount _ processedStrokes segments with
                ⟨h1, h2⟩ | ⟨h1, h2⟩
              · exact Or.inl ⟨h1, h2⟩
              · exact Or.inr ⟨h1, Or.inr h2⟩
        · exact Or.inr ⟨rfl, Or.inl rfl⟩
      · rcases explainedInkStage_shape strokeCount _ processedStrokes segments with
          ⟨h1, h2⟩ | ⟨h1, h2⟩
        · exact Or.inl ⟨h1, h2⟩
        · exact Or.inr ⟨h1, Or.inr h2⟩

set_option maxHeartbeats 2000000 in
theorem validateMark_nonempty_shape (strokes : List Stroke)
    (h : ¬ strokes.length = 0) :
    ((BallotValidation.validateMark strokes).valid = some true ∧
      (BallotValidation.validateMark strokes).invalid_type = none) ∨
    ((BallotValidation.validateMark strokes).valid = some false ∧
      ∃ t, (BallotValidation.validateMark strokes).invalid_type = some t ∧
        (t = "blank" ∨ t = "wrong_symbol" ∨ t = "outside_box" ∨ t = "no_cross" ∨
         t = "multi_mark" ∨ t = "extra_writing")) := by
  rw [BallotValidation.validateMark, if_neg h]
  dsimp only
  split
  · exact Or.inr ⟨rfl, "blank", rfl, by tauto⟩
  · split
    · exact Or.inr ⟨rfl, "wrong_symbol", rfl, by tauto⟩
    · split
      · exact Or.inr ⟨rfl, "outside_box", rfl, by tauto⟩
      · split
        · exact Or.inr ⟨rfl, "no_cross", rfl, by tauto⟩
        · split
          · rename_i r heq
            obtain ⟨h1, h2⟩ := multiMarkStage_shape _ _ r heq
            rcases h2 with h2 | h2
            · exact Or.inr ⟨h1, "multi_mark", h2, by tauto⟩
            · exact Or.inr ⟨h1, "wrong_symbol", h2, by tauto⟩
          · rcases bestCandidateStage_shape strokes.length _ _ _ with
              ⟨h1, h2⟩ | ⟨h1, h2 | h2⟩
            · exact Or.inl ⟨h1, h2⟩
            · exact Or.inr ⟨h1, "wrong_symbol", h2, by tauto⟩
            · exact Or.inr ⟨h1, "extra_writing", h2, by tauto⟩

/-- C9: `validateMark` returns `valid = null` (embedded as `none`) exactly
when the input stroke list is empty (the WAITING state), and whenever the
result has `valid = false` it carries a non-null `invalid_type` equal to one
of the defined invalid category tags. -/
theorem validateMark_waiting_and_tags (strokes : List Stroke) :
    ((BallotValidation.validateMark strokes).valid = none ↔ strokes = []) ∧
    ((BallotValidation.validateMark strokes).valid = some false →
      ∃ t, (BallotValidation.validateMark strokes).invalid_type = some t ∧
        (t = "blank" ∨ t = "wrong_symbol" ∨ t = "outside_box" ∨ t = "no_cross" ∨
         t = "multi_mark" ∨ t = "extra_writing")) := by
  by_cases h : strokes.length = 0
  · have hnil : strokes = [] := List.length_eq_zero.mp h
    subst hnil
    rw [BallotValidation.validateMark]
    norm_num
    exact fun hf => Option.noConfusion hf
  · have hne : ¬ strokes = [] := fun hnil => h (by simp [hnil])
    rcases validateMark_nonempty_shape strokes h with ⟨h1, -⟩ | ⟨h1, h2⟩
    · constructor
      · rw [h1]
        simp [hne]
      · rw [h1]
        intro hfalse
        exact absurd hfalse (by simp)
    · constructor
      · rw [h1]
        simp [hne]
      · intro _
        exact h2

/-- C9 (witness instance): the empty stroke list yields the WAITING state. -/
theorem validateMark_waiting_and_tags_witness :
    (((BallotValidation.validateMark []).valid = none ↔ ([] : List Stroke) = []) ∧
    ((BallotValidation.validateMark []).valid = some false →
      ∃ t, (BallotValidation.validateMark []).invalid_type = some t ∧
        (t = "blank" ∨ t = "wrong_symbol" ∨ t = "outside_box" ∨ t = "no_cross" ∨
         t = "multi_mark" ∨ t = "extra_writing"))) :=
  validateMark_waiting_and_tags []

theorem scanMax_spec (ds : List ℝ) : ∀ (i0 : ℕ) (m0 : ℝ) (mi0 : ℕ),
    (BallotPreprocessing.scanMax ds i0 (m0, mi0) = (m0, mi0) ∧ ∀ d ∈ ds, d ≤ m0) ∨
    (∃ k, k < ds.length ∧
      BallotPreprocessing.scanMax ds i0 (m0, mi0) = (ds.getD k 0, i0 + k) ∧
      m0 < ds.getD k 0 ∧
      (∀ k', k' < k → ds.getD k' 0 < ds.getD k 0) ∧
      (∀ k', k < k' → k' < ds.length → ds.getD k' 0 ≤ ds.getD k 0)) := by
  induction ds with
  | nil =>
    intro i0 m0 mi0
    exact Or.inl ⟨rfl, by simp⟩
  | cons d ds ih =>
    intro i0 m0 mi0
    rw [BallotPreprocessing.scanMax]
    split
    · rename_i hmd
      rcases ih (i0 + 1) d i0 with ⟨heq, hall⟩ | ⟨k, hk, heq, hlt, hbef, haft⟩
      · refine Or.inr ⟨0, by simp, ?_, ?_, ?_, ?_⟩
        · rw [heq]
          simp
        · simpa using hmd
        · intro k' hk'
          omega
        · intro k' hk' hk'len
          obtain ⟨t, rfl⟩ : ∃ t, k' = t + 1 := ⟨k' - 1, by omega⟩
          simp only [List.getD_cons_succ, List.getD_cons_zero]
          have ht : t < ds.length := by simpa using hk'len
          rw [List.getD_eq_getElem ds 0 ht]
          exact hall _ (List.getElem_mem _)
      · refine Or.inr ⟨k + 1, by simpa using hk, ?_, ?_, ?_, ?_⟩
        · rw [heq]
          simp only [List.getD_cons_succ]
          congr 1
          omega
        · simp only [List.getD_cons_succ]
          exact hmd.trans hlt
        · intro k' hk'
          match k' with
          | 0 =>
            simp only [List.getD_cons_succ, List.getD_cons_zero]
            exact hlt
          | t + 1 =>
            simp only [List.getD_cons_succ]
            exact hbef t (by omega)
        · intro k' hk' hk'len
          match k', hk' with
          | t + 1, _ =>
            simp only [List.getD_cons_succ]
            exact haft t (by omega) (by simpa using hk'len)
    · rename_i hmd
      push_neg at hmd
      rcases ih (i0 + 1) m0 mi0 with ⟨heq, hall⟩ | ⟨k, hk, heq, hlt, hbef, haft⟩
      · refine Or.inl ⟨heq, ?_⟩
        intro x hx
        rcases List.mem_cons.mp hx with rfl | hx'
        · exact hmd
        · exact hall x hx'
      · refine Or.inr ⟨k + 1, by simpa using hk, ?_, ?_, ?_, ?_⟩
        · rw [heq]
          simp only [List.getD_cons_succ]
          congr 1
          omega
        · simp only [List.getD_cons_succ]
          exact hlt
        · intro k' hk'
          match k' with
          | 0 =>
            simp only [List.getD_cons_succ, List.getD_cons_zero]
            exact lt_of_le_of_lt hmd hlt
          | t + 1 =>
            simp only [List.getD_cons_succ]
            exact hbef t (by omega)
        · intro k' hk' hk'len
          match k', hk' with
          | t + 1, _ =>
            simp only [List.getD_cons_succ]
            exact haft t (by omega) (by simpa using hk'len)

theorem head?_dropLast {α : Type} (l : List α) (h : 2 ≤ l.length) :
    l.dropLast.head? = l.head? := by
  match l, h with
  | a :: b :: t, _ => simp

theorem head?_take_succ {α : Type} (l : List α) (k : ℕ) :
    (l.take (k + 1)).head? = l.head? := by
  cases l <;> simp

theorem head?_eq_headD {α : Type} (l : List α) (d : α) (h : l ≠ []) :
    l.head? = some (l.headD d) := by
  cases l with
  | nil => exact absurd rfl h
  | cons a t => simp

theorem getLast?_eq_getLastD {α : Type} (l : List α) (d : α) (h : l ≠ []) :
    l.getLast? = some (l.getLastD d) := by
  cases hl : l.getLast? with
  | none => exact absurd (List.getLast?_eq_none_iff.mp hl) h
  | some a =>
    rw [List.getLastD_eq_getLast?, hl]
    rfl

theorem getLastD_mem {α : Type} (l : List α) (d : α) (h : l ≠ []) :
    l.getLastD d ∈ l :=
  List.mem_of_mem_getLast? (by rw [getLast?_eq_getLastD l d h]; rfl)

theorem getLast?_drop_of_lt {α : Type} (l : List α) (k : ℕ) (h : k < l.length) :
    (l.drop k).getLast? = l.getLast? := by
  conv_rhs => rw [← List.take_append_drop k l]
  rw [List.getLast?_append_of_ne_nil _ (by
    intro hnil
    have := List.drop_eq_nil_iff.mp hnil
    omega)]

theorem drop_one_append {α : Type} (A B : List α) (h : A ≠ []) :
    (A ++ B).drop 1 = A.drop 1 ++ B := by
  match A, h with
  | a :: t, _ => simp

theorem take_succ_getD {α : Type} (l : List α) (m : ℕ) (d : α) (h : m < l.length) :
    l.take (m + 1) = l.take m ++ [l.getD m d] := by
  rw [List.take_succ]
  congr 1
  simp [List.getD, List.getElem?_eq_getElem h]

theorem rdp_length_ge (points : List Point) (ε : ℝ) (h2 : 2 ≤ points.length) :
    2 ≤ (BallotPreprocessing.simplifyRDP points ε).length := by
  induction points, ε using BallotPreprocessing.simplifyRDP.induct with
  | case1 points ε hlt =>
    rw [BallotPreprocessing.simplifyRDP, if_pos hlt]
    exact h2
  | case2 points ε hlt hscan hguard ih1 ih2 =>
    rw [BallotPreprocessing.simplifyRDP, if_neg hlt, if_pos hscan, dif_pos hguard]
    have hl : 2 ≤ (BallotPreprocessing.simplifyRDP
        (points.take ((BallotPreprocessing.rdpScanRes points).2 + 1)) ε).length := by
      apply ih1
      simp only [List.length_take]
      omega
    have hr : 2 ≤ (BallotPreprocessing.simplifyRDP
        (points.drop (BallotPreprocessing.rdpScanRes points).2) ε).length := by
      apply ih2
      simp only [List.length_drop]
      omega
    rw [List.length_append, List.length_dropLast]
    omega
  | case3 points ε hlt hscan hguard =>
    rw [BallotPreprocessing.simplifyRDP, if_neg hlt, if_pos hscan, dif_neg hguard]
    simp
  | case4 points ε hlt hscan =>
    rw [BallotPreprocessing.simplifyRDP, if_neg hlt, if_neg hscan]
    simp

theorem rdp_head (points : List Point) (ε : ℝ) (h : points ≠ []) :
    (BallotPreprocessing.simplifyRDP points ε).head? = points.head? := by
  induction points, ε using BallotPreprocessing.simplifyRDP.induct with
  | case1 points ε hlt =>
    rw [BallotPreprocessing.simplifyRDP, if_pos hlt]
  | case2 points ε hlt hscan hguard ih1 ih2 =>
    rw [BallotPreprocessing.simplifyRDP, if_neg hlt, if_pos hscan, dif_pos hguard]
    have hlen2 : 2 ≤ (points.take ((BallotPreprocessing.rdpScanRes points).2 + 1)).length := by
      simp only [List.length_take]
      omega
    have hl2 : 2 ≤ (BallotPreprocessing.simplifyRDP
        (points.take ((BallotPreprocessing.rdpScanRes points).2 + 1)) ε).length :=
      rdp_length_ge _ _ hlen2
    rw [List.head?_append, head?_dropLast _ hl2,
      ih1 (List.ne_nil_of_length_pos (by omega)), head?_take_succ,
      head?_eq_headD points ⟨0, 0⟩ h]
    rfl
  | case3 points ε hlt hscan hguard =>
    rw [BallotPreprocessing.simplifyRDP, if_neg hlt, if_pos hscan, dif_neg hguard,
      head?_eq_headD points ⟨0, 0⟩ h]
    rfl
  | case4 points ε hlt hscan =>
    rw [BallotPreprocessing.simplifyRDP, if_neg hlt, if_neg hscan,
      head?_eq_headD points ⟨0, 0⟩ h]
    rfl

theorem rdp_getLast (points : List Point) (ε : ℝ) (h : points ≠ []) :
    (BallotPreprocessing.simplifyRDP points ε).getLast? = points.getLast? := by
  induction points, ε using BallotPreprocessing.simplifyRDP.induct with
  | case1 points ε hlt =>
    rw [BallotPreprocessing.simplifyRDP, if_pos hlt]
  | case2 points ε hlt hscan hguard ih1 ih2 =>
    rw [BallotPreprocessing.simplifyRDP, if_neg hlt, if_pos hscan, dif_pos hguard]
    have hmlt : (BallotPreprocessing.rdpScanRes points).2 < points.length := by omega
    have hdlen : 2 ≤ (points.drop (BallotPreprocessing.rdpScanRes points).2).length := by
      simp only [List.length_drop]
      omega
    have hr2 : 2 ≤ (BallotPreprocessing.simplifyRDP
        (points.drop (BallotPreprocessing.rdpScanRes points).2) ε).length :=
      rdp_length_ge _ _ hdlen
    rw [List.getLast?_append_of_ne_nil _ (List.ne_nil_of_length_pos (by omega)),
      ih2 (List.ne_nil_of_length_pos (by omega)), getLast?_drop_of_lt _ _ hmlt]
  | case3 points ε hlt hscan hguard =>
    rw [BallotPreprocessing.simplifyRDP, if_neg hlt, if_pos hscan, dif_neg hguard,
      getLast?_eq_getLastD points ⟨0, 0⟩ h]
    simp
  | case4 points ε hlt hscan =>
    rw [BallotPreprocessing.simplifyRDP, if_neg hlt, if_neg hscan,
      getLast?_eq_getLastD points ⟨0, 0⟩ h]
    simp

theorem head_last_sublist {α : Type} (l : List α) (d : α) (h : 2 ≤ l.length) :
    List.Sublist [l.headD d, l.getLastD d] l := by
  match l, h with
  | a :: b :: t, _ =>
    have h1 : (a :: b :: t).getLast? = (b :: t).getLast? := by
      rw [show a :: b :: t = [a] ++ (b :: t) from rfl]
      exact List.getLast?_append_of_ne_nil _ (by simp)
    have h2 : (a :: b :: t).getLastD d = (b :: t).getLastD d := by
      rw [List.getLastD_eq_getLast?, List.getLastD_eq_getLast?, h1]
    simp only [List.headD_cons, h2]
    exact List.cons_sublist_cons.mpr
      (List.singleton_sublist.mpr (getLastD_mem _ d (by simp)))

theorem rdp_sublist (points : List Point) (ε : ℝ) :
    List.Sublist (BallotPreprocessing.simplifyRDP points ε) points := by
  induction points, ε using BallotPreprocessing.simplifyRDP.induct with
  | case1 points ε hlt =>
    rw [BallotPreprocessing.simplifyRDP, if_pos hlt]
  | case2 points ε hlt hscan hguard ih1 ih2 =>
    rw [BallotPreprocessing.simplifyRDP, if_neg hlt, if_pos hscan, dif_pos hguard]
    have hmlt : (BallotPreprocessing.rdpScanRes points).2 < points.length := by omega
    have hsplit : points.take ((BallotPreprocessing.rdpScanRes points).2 + 1) =
        points.take (BallotPreprocessing.rdpScanRes points).2 ++
          [points.getD (BallotPreprocessing.rdpScanRes points).2 ⟨0, 0⟩] :=
      take_succ_getD points _ ⟨0, 0⟩ hmlt
    have hl : List.Sublist
        (BallotPreprocessing.simplifyRDP
          (points.take ((BallotPreprocessing.rdpScanRes points).2 + 1)) ε)
        (points.take (BallotPreprocessing.rdpScanRes points).2 ++
          [points.getD (BallotPreprocessing.rdpScanRes points).2 ⟨0, 0⟩]) :=
      hsplit ▸ ih1
    have hld : List.Sublist
        (BallotPreprocessing.simplifyRDP
          (points.take ((BallotPreprocessing.rdpScanRes points).2 + 1)) ε).dropLast
        (points.take (BallotPreprocessing.rdpScanRes points).2) := by
      rcases List.sublist_append_iff.mp hl with ⟨l₁, l₂, heq, h₁, h₂⟩
      rcases List.sublist_singleton.mp h₂ with hn | hn
      · rw [heq, hn, List.append_nil]
        exact List.Sublist.trans (List.dropLast_sublist _) h₁
      · rw [heq, hn, List.dropLast_concat]
        exact h₁
    have := List.Sublist.append hld ih2
    rwa [List.take_append_drop] at this
  | case3 points ε hlt hscan hguard =>
    rw [BallotPreprocessing.simplifyRDP, if_neg hlt, if_pos hscan, dif_neg hguard]
    exact head_last_sublist points ⟨0, 0⟩ (by omega)
  | case4 points ε hlt hscan =>
    rw [BallotPreprocessing.simplifyRDP, if_neg hlt, if_neg hscan]
    exact head_last_sublist points ⟨0, 0⟩ (by omega)

theorem dist_self_pt (p : Point) : BallotGeometry.dist p p = 0 := by
  simp [BallotGeometry.dist]

theorem pointToSegmentDist_nonneg (pt p q : Point) :
    0 ≤ BallotPreprocessing.pointToSegmentDist pt p q := by
  unfold BallotPreprocessing.pointToSegmentDist BallotGeometry.dist
  dsimp only
  split <;> exact Real.sqrt_nonneg _

theorem pointToSegmentDist_left (p q : Point) :
    BallotPreprocessing.pointToSegmentDist p p q = 0 := by
  unfold BallotPreprocessing.pointToSegmentDist
  dsimp only
  split
  · exact dist_self_pt p
  · simp only [sub_self, zero_mul, add_zero, zero_add, zero_div, BallotGeometry.dist]
    norm_num

theorem pointToSegmentDist_right (p q : Point) :
    BallotPreprocessing.pointToSegmentDist q p q = 0 := by
  unfold BallotPreprocessing.pointToSegmentDist
  dsimp only
  split
  · rename_i hz
    have hx : (q.x - p.x) * (q.x - p.x) = 0 := by nlinarith [mul_self_nonneg (q.x - p.x), mul_self_nonneg (q.y - p.y)]
    have hy : (q.y - p.y) * (q.y - p.y) = 0 := by nlinarith [mul_self_nonneg (q.x - p.x), mul_self_nonneg (q.y - p.y)]
    have hx0 : q.x = p.x := by nlinarith [mul_self_eq_zero.mp hx]
    have hy0 : q.y = p.y := by nlinarith [mul_self_eq_zero.mp hy]
    simp [BallotGeometry.dist, hx0, hy0]
  · rename_i hz
    have ht : ((q.x - p.x) * (q.x - p.x) + (q.y - p.y) * (q.y - p.y)) /
        ((q.x - p.x) * (q.x - p.x) + (q.y - p.y) * (q.y - p.y)) = 1 :=
      div_self hz
    rw [ht]
    have hmin : min (1 : ℝ) 1 = 1 := min_self 1
    have hmax : max (0 : ℝ) 1 = 1 := max_eq_right zero_le_one
    rw [hmin, hmax]
    simp only [one_mul, BallotGeometry.dist]
    norm_num

theorem headD_eq_getD {α : Type} (l : List α) (d : α) : l.headD d = l.getD 0 d := by
  cases l <;> simp

theorem getLastD_eq_getD {α : Type} (l : List α) (d : α) (h : l ≠ []) :
    l.getLastD d = l.getD (l.length - 1) d := by
  have h1 : l.getLast? = some (l.getLastD d) := getLast?_eq_getLastD l d h
  have h2 : l.getLast? = l[l.length - 1]? := List.getLast?_eq_getElem? l
  rw [List.getD_eq_getElem?_getD, ← h2, h1]
  rfl

theorem take_last_getD {α : Type} (l : List α) (m : ℕ) (d : α) (h : m < l.length) :
    (l.take (m + 1)).getLast? = some (l.getD m d) := by
  rw [take_succ_getD l m d h, List.getLast?_append_of_ne_nil _ (by simp)]
  simp

theorem take_one_eq {α : Type} (l : List α) (x : α) (h : l.head? = some x) :
    l.take 1 = [x] := by
  cases l with
  | nil => simp at h
  | cons a t =>
    simp only [List.head?_cons, Option.some_inj] at h
    simp [h]

theorem mem_take_getD {α : Type} (l : List α) (m : ℕ) (d : α) (v : α) (h : v ∈ l.take m) :
    ∃ j, j < m ∧ j < l.length ∧ v = l.getD j d := by
  rcases List.mem_iff_getElem.mp h with ⟨i, hi, hv⟩
  have hlen : i < m ∧ i < l.length := by
    simp only [List.length_take] at hi
    omega
  refine ⟨i, hlen.1, hlen.2, ?_⟩
  rw [List.getD_eq_getElem _ _ hlen.2, ← hv, List.getElem_take]

theorem mem_drop_getD {α : Type} (l : List α) (m : ℕ) (d : α) (v : α) (h : v ∈ l.drop m) :
    ∃ j, m ≤ j ∧ j < l.length ∧ v = l.getD j d := by
  rcases List.mem_iff_getElem.mp h with ⟨i, hi, hv⟩
  have hlen : m + i < l.length := by
    simp only [List.length_drop] at hi
    omega
  refine ⟨m + i, by omega, hlen, ?_⟩
  rw [List.getD_eq_getElem _ _ hlen, ← hv, List.getElem_drop]

theorem interior_map_getD (points : List Point) (f : Point → ℝ) (k : ℕ)
    (h : k + 2 < points.length) :
    (((points.drop 1).dropLast).map f).getD k 0 = f (points.getD (k + 1) ⟨0, 0⟩) := by
  have hlen : k < ((points.drop 1).dropLast).length := by
    simp only [List.length_dropLast, List.length_drop]
    omega
  rw [List.getD_eq_getElem _ _ (by simpa using hlen), List.getElem_map,
    List.getElem_dropLast, List.getElem_drop,
    List.getD_eq_getElem _ _ (by omega : k + 1 < points.length)]
  simp [Nat.add_comm]

theorem sublist_concat_dropLast {α : Type} (l A : List α) (x : α)
    (h : List.Sublist l (A ++ [x])) : List.Sublist l.dropLast A := by
  rcases List.sublist_append_iff.mp h with ⟨l₁, l₂, heq, h₁, h₂⟩
  rcases List.sublist_singleton.mp h₂ with hn | hn
  · rw [heq, hn, List.append_nil]
    exact List.Sublist.trans (List.dropLast_sublist _) h₁
  · rw [heq, hn, List.dropLast_concat]
    exact h₁

theorem head?_some_getD {α : Type} (l : List α) (x d : α) (h : l.head? = some x) :
    l.getD 0 d = x := by
  cases l with
  | nil => simp at h
  | cons a t =>
    simp only [List.head?_cons, Option.some_inj] at h
    simpa using h

theorem rdpScanRes_eval (R : List Point) (kM : ℕ) (M : ℝ)
    (hk1 : 1 ≤ kM) (hk2 : kM + 2 ≤ R.length)
    (hMpos : 0 < M)
    (hMid : BallotPreprocessing.pointToSegmentDist (R.getD kM ⟨0, 0⟩)
      (R.headD ⟨0, 0⟩) (R.getLastD ⟨0, 0⟩) = M)
    (hbef : ∀ j, 1 ≤ j → j < kM →
      BallotPreprocessing.pointToSegmentDist (R.getD j ⟨0, 0⟩)
        (R.headD ⟨0, 0⟩) (R.getLastD ⟨0, 0⟩) < M)
    (haft : ∀ j, kM < j → j + 1 < R.length →
      BallotPreprocessing.pointToSegmentDist (R.getD j ⟨0, 0⟩)
        (R.headD ⟨0, 0⟩) (R.getLastD ⟨0, 0⟩) ≤ M) :
    BallotPreprocessing.rdpScanRes R = (M, kM) := by
  have hres : BallotPreprocessing.rdpScanRes R =
      BallotPreprocessing.scanMax
        (((R.drop 1).dropLast).map fun p =>
          BallotPreprocessing.pointToSegmentDist p (R.headD ⟨0, 0⟩) (R.getLastD ⟨0, 0⟩))
        1 (0, 0) := rfl
  set ds := ((R.drop 1).dropLast).map fun p =>
      BallotPreprocessing.pointToSegmentDist p (R.headD ⟨0, 0⟩) (R.getLastD ⟨0, 0⟩)
    with hds
  have hdslen : ds.length = R.length - 1 - 1 := by
    rw [hds]
    simp
  have hdsget : ∀ j, j + 2 < R.length → ds.getD j 0 =
      BallotPreprocessing.pointToSegmentDist (R.getD (j + 1) ⟨0, 0⟩)
        (R.headD ⟨0, 0⟩) (R.getLastD ⟨0, 0⟩) := by
    intro j hj
    rw [hds]
    exact interior_map_getD R _ j hj
  have hkm1 : kM - 1 + 1 = kM := by omega
  have hmem : ds.getD (kM - 1) 0 = M := by
    rw [hdsget (kM - 1) (by omega), hkm1, hMid]
  rcases scanMax_spec ds 1 0 0 with ⟨heq, hall⟩ | ⟨k, hk, heq, hpos, hbefs, hafts⟩
  · exfalso
    have h1 : ds.getD (kM - 1) 0 ∈ ds := by
      rw [List.getD_eq_getElem _ _ (by omega : kM - 1 < ds.length)]
      exact List.getElem_mem _
    have h2 := hall _ h1
    rw [hmem] at h2
    linarith
  · have hkeq : k = kM - 1 := by
      by_contra hne
      rcases Nat.lt_or_ge k (kM - 1) with hlt | hge
      · have h2 := hafts (kM - 1) hlt (by omega)
        rw [hmem] at h2
        have h3 : ds.getD k 0 < M := by
          rw [hdsget k (by omega)]
          exact hbef (k + 1) (by omega) (by omega)
        linarith
      · have hgt : kM - 1 < k := by omega
        have h2 := hbefs (kM - 1) hgt
        rw [hmem] at h2
        have h3 : ds.getD k 0 ≤ M := by
          rw [hdsget k (by omega)]
          exact haft (k + 1) (by omega) (by omega)
        linarith
    subst hkeq
    rw [hres, heq, hmem]
    congr 1
    omega

/-- C7: `simplifyRDP` is idempotent — running the Ramer–Douglas–Peucker
simplification a second time with the same tolerance on its own output
returns that output unchanged. -/
theorem simplifyRDP_idem (points : List Point) (ε : ℝ) :
    BallotPreprocessing.simplifyRDP (BallotPreprocessing.simplifyRDP points ε) ε =
      BallotPreprocessing.simplifyRDP points ε := by
  induction points, ε using BallotPreprocessing.simplifyRDP.induct with
  | case1 points ε hlt =>
    have h0 : BallotPreprocessing.simplifyRDP points ε = points := by
      rw [BallotPreprocessing.simplifyRDP, if_pos hlt]
    rw [h0, h0]
  | case2 points ε hlt hscan hguard ih1 ih2 =>
    have hne : points ≠ [] := by
      intro h0
      rw [h0] at hlt
      simp at hlt
    have hstep : BallotPreprocessing.simplifyRDP points ε =
        (BallotPreprocessing.simplifyRDP
          (points.take ((BallotPreprocessing.rdpScanRes points).2 + 1)) ε).dropLast ++
          BallotPreprocessing.simplifyRDP
            (points.drop (BallotPreprocessing.rdpScanRes points).2) ε := by
      rw [BallotPreprocessing.simplifyRDP, if_neg hlt, if_pos hscan, dif_pos hguard]
    set M := (BallotPreprocessing.rdpScanRes points).1 with hMdef
    set m := (BallotPreprocessing.rdpScanRes points).2 with hmdef
    obtain ⟨hm1, hmn⟩ := hguard
    have htlen : 2 ≤ (points.take (m + 1)).length := by
      simp only [List.length_take]
      omega
    have hdlen : 2 ≤ (points.drop m).length := by
      simp only [List.length_drop]
      omega
    have htne : points.take (m + 1) ≠ [] := List.ne_nil_of_length_pos (by omega)
    have hdne : points.drop m ≠ [] := List.ne_nil_of_length_pos (by omega)
    set L := BallotPreprocessing.simplifyRDP (points.take (m + 1)) ε with hLdef
    set Rr := BallotPreprocessing.simplifyRDP (points.drop m) ε with hRrdef
    have hLlen2 : 2 ≤ L.length := by
      rw [hLdef]
      exact rdp_length_ge _ _ htlen
    have hRrlen2 : 2 ≤ Rr.length := by
      rw [hRrdef]
      exact rdp_length_ge _ _ hdlen
    have hRlen : (L.dropLast ++ Rr).length = L.length - 1 + Rr.length := by
      simp [List.length_dropLast]
    have hR3 : ¬ (L.dropLast ++ Rr).length < 3 := by omega
    have hRhead : (L.dropLast ++ Rr).head? = points.head? := by
      rw [← hstep]
      exact rdp_head points ε hne
    have hRlast : (L.dropLast ++ Rr).getLast? = points.getLast? := by
      rw [← hstep]
      exact rdp_getLast points ε hne
    have hRheadD : (L.dropLast ++ Rr).headD ⟨0, 0⟩ = points.headD ⟨0, 0⟩ := by
      rw [List.headD_eq_head?_getD, List.headD_eq_head?_getD, hRhead]
    have hRlastD : (L.dropLast ++ Rr).getLastD ⟨0, 0⟩ = points.getLastD ⟨0, 0⟩ := by
      rw [List.getLastD_eq_getLast?, List.getLastD_eq_getLast?, hRlast]
    have hRrhead : Rr.head? = some (points.getD m ⟨0, 0⟩) := by
      rw [hRrdef, rdp_head _ ε hdne, List.head?_drop,
        List.getElem?_eq_getElem (by omega : m < points.length),
        List.getD_eq_getElem points ⟨0, 0⟩ (by omega : m < points.length)]
    have hLlast : L.getLast? = some (points.getD m ⟨0, 0⟩) := by
      rw [hLdef, rdp_getLast _ ε htne, take_last_getD points m ⟨0, 0⟩ (by omega)]
    have hLsub : List.Sublist L (points.take m ++ [points.getD m ⟨0, 0⟩]) := by
      rw [← take_succ_getD points m ⟨0, 0⟩ (by omega), hLdef]
      exact rdp_sublist _ ε
    have hLAsub : List.Sublist L.dropLast (points.take m) :=
      sublist_concat_dropLast _ _ _ hLsub
    have hRrsub : List.Sublist Rr (points.drop m) := by
      rw [hRrdef]
      exact rdp_sublist _ ε
    set ds1 := ((points.drop 1).dropLast).map (fun p =>
        BallotPreprocessing.pointToSegmentDist p (points.headD ⟨0, 0⟩)
          (points.getLastD ⟨0, 0⟩))
      with hds1def
    have hres1 : BallotPreprocessing.rdpScanRes points =
        BallotPreprocessing.scanMax ds1 1 (0, 0) := rfl
    have hds1len : ds1.length = points.length - 1 - 1 := by
      rw [hds1def]
      simp
    have hdsget1 : ∀ j, j + 2 < points.length → ds1.getD j 0 =
        BallotPreprocessing.pointToSegmentDist (points.getD (j + 1) ⟨0, 0⟩)
          (points.headD ⟨0, 0⟩) (points.getLastD ⟨0, 0⟩) := by
      intro j hj
      rw [hds1def]
      exact interior_map_getD points _ j hj
    rcases scanMax_spec ds1 1 0 0 with ⟨heq, _⟩ | ⟨k, hk, heq, hpos, hbef1, haft1⟩
    · exfalso
      have h0 : m = 0 := by
        rw [hmdef, hres1, heq]
      omega
    · have hMk : M = ds1.getD k 0 := by
        rw [hMdef, hres1, heq]
      have hmk : m = 1 + k := by
        rw [hmdef, hres1, heq]
      have hMpos : 0 < M := by
        rw [hMk]
        exact hpos
      have hm' : m = k + 1 := by omega
      have hDVm : BallotPreprocessing.pointToSegmentDist (points.getD m ⟨0, 0⟩)
          (points.headD ⟨0, 0⟩) (points.getLastD ⟨0, 0⟩) = M := by
        rw [hm', hMk, hdsget1 k (by omega)]
      have hF4a : ∀ j, j < m →
          BallotPreprocessing.pointToSegmentDist (points.getD j ⟨0, 0⟩)
            (points.headD ⟨0, 0⟩) (points.getLastD ⟨0, 0⟩) < M := by
        intro j hj
        rcases Nat.eq_zero_or_pos j with rfl | hj1
        · rw [← headD_eq_getD, pointToSegmentDist_left]
          exact hMpos
        · obtain ⟨t, rfl⟩ : ∃ t, j = t + 1 := ⟨j - 1, by omega⟩
          rw [← hdsget1 t (by omega), hMk]
          exact hbef1 t (by omega)
      have hF4b : ∀ j, m ≤ j → j < points.length →
          BallotPreprocessing.pointToSegmentDist (points.getD j ⟨0, 0⟩)
            (points.headD ⟨0, 0⟩) (points.getLastD ⟨0, 0⟩) ≤ M := by
        intro j hjm hjn
        rcases Nat.lt_or_ge j (m + 1) with hlt | hge
        · have hjm' : j = m := by omega
          rw [hjm', hDVm]
        · rcases Nat.lt_or_ge j (points.length - 1) with hmid | hlast
          · obtain ⟨t, rfl⟩ : ∃ t, j = t + 1 := ⟨j - 1, by omega⟩
            rw [← hdsget1 t (by omega), hMk]
            exact haft1 t (by omega) (by omega)
          · have hj' : j = points.length - 1 := by omega
            rw [hj', ← getLastD_eq_getD points ⟨0, 0⟩ hne, pointToSegmentDist_right]
            exact le_of_lt hMpos
      have hRget : (L.dropLast ++ Rr).getD (L.length - 1) ⟨0, 0⟩ =
          points.getD m ⟨0, 0⟩ := by
        have h1 : L.dropLast.length ≤ L.length - 1 := by
          simp [List.length_dropLast]
        rw [List.getD_append_right _ _ _ _ h1]
        have h2 : L.length - 1 - L.dropLast.length = 0 := by
          simp [List.length_dropLast]
        rw [h2]
        exact head?_some_getD Rr _ _ hRrhead
      have hbefR : ∀ j, 1 ≤ j → j < L.length - 1 →
          BallotPreprocessing.pointToSegmentDist ((L.dropLast ++ Rr).getD j ⟨0, 0⟩)
            ((L.dropLast ++ Rr).headD ⟨0, 0⟩) ((L.dropLast ++ Rr).getLastD ⟨0, 0⟩) < M := by
        intro j hj1 hjk
        rw [hRheadD, hRlastD]
        have hjA : j < L.dropLast.length := by
          rw [List.length_dropLast]
          omega
        rw [List.getD_append _ _ _ _ hjA]
        have hv : L.dropLast.getD j ⟨0, 0⟩ ∈ L.dropLast := by
          rw [List.getD_eq_getElem _ _ hjA]
          exact List.getElem_mem _
        have hv2 : L.dropLast.getD j ⟨0, 0⟩ ∈ points.take m := hLAsub.subset hv
        obtain ⟨j', hj'm, hj'n, hveq⟩ := mem_take_getD points m ⟨0, 0⟩ _ hv2
        rw [hveq]
        exact hF4a j' hj'm
      have haftR : ∀ j, L.length - 1 < j → j + 1 < (L.dropLast ++ Rr).length →
          BallotPreprocessing.pointToSegmentDist ((L.dropLast ++ Rr).getD j ⟨0, 0⟩)
            ((L.dropLast ++ Rr).headD ⟨0, 0⟩) ((L.dropLast ++ Rr).getLastD ⟨0, 0⟩) ≤ M := by
        intro j hjk hjlen
        rw [hRheadD, hRlastD]
        have hjA : L.dropLast.length ≤ j := by
          rw [List.length_dropLast]
          omega
        rw [List.getD_append_right _ _ _ _ hjA]
        have hvmem : Rr.getD (j - L.dropLast.length) ⟨0, 0⟩ ∈ Rr := by
          rw [List.getD_eq_getElem _ _ (by
            simp only [List.length_append, List.length_dropLast] at hjlen
            simp only [List.length_dropLast]
            omega)]
          exact List.getElem_mem _
        have hv2 : Rr.getD (j - L.dropLast.length) ⟨0, 0⟩ ∈ points.drop m :=
          hRrsub.subset hvmem
        obtain ⟨j', hj'm, hj'n, hveq⟩ := mem_drop_getD points m ⟨0, 0⟩ _ hv2
        rw [hveq]
        exact hF4b j' hj'm hj'n
      have hres2 : BallotPreprocessing.rdpScanRes (L.dropLast ++ Rr) =
          (M, L.length - 1) := by
        refine rdpScanRes_eval _ _ _ (by omega) (by omega) hMpos ?_ hbefR haftR
        rw [hRget, hRheadD, hRlastD]
        exact hDVm
      rw [hstep, BallotPreprocessing.simplifyRDP, if_neg hR3, hres2]
      have htake : (L.dropLast ++ Rr).take (L.length - 1 + 1) = L := by
        have h1 : L.length - 1 + 1 = L.dropLast.length + 1 := by
          rw [List.length_dropLast]
        rw [h1, List.take_append 1, take_one_eq Rr _ hRrhead,
          List.dropLast_append_getLast? _ hLlast]
      have hdrop : (L.dropLast ++ Rr).drop (L.length - 1) = Rr := by
        have h1 : L.length - 1 = L.dropLast.length := by
          rw [List.length_dropLast]
        rw [h1, List.drop_left]
      rw [if_pos hscan, dif_pos ⟨by omega, by omega⟩, htake, hdrop, ih1, ih2]
  | case3 points ε hlt hscan hguard =>
    have h0 : BallotPreprocessing.simplifyRDP points ε =
        [points.headD ⟨0, 0⟩, points.getLastD ⟨0, 0⟩] := by
      rw [BallotPreprocessing.simplifyRDP, if_neg hlt, if_pos hscan, dif_neg hguard]
    rw [h0, BallotPreprocessing.simplifyRDP, if_pos (by simp)]
  | case4 points ε hlt hscan =>
    have h0 : BallotPreprocessing.simplifyRDP points ε =
        [points.headD ⟨0, 0⟩, points.getLastD ⟨0, 0⟩] := by
      rw [BallotPreprocessing.simplifyRDP, if_neg hlt, if_neg hscan]
    rw [h0, BallotPreprocessing.simplifyRDP, if_pos (by simp)]
